import Mathlib

/-!
Verification of the LinketConnect profile store, autosave reconciler, lead-form
key de-duplication and lead-form honeypot against their natural-language
specification.

The definitions below are a shallow embedding of the TypeScript sources:

* `profile-service.ts` (the in-memory store: `memorySaveProfileForUser`,
  `memoryDeleteProfileForUser`, `memorySetActiveProfileForUser`,
  `memoryEnsureSingleActiveProfile`, `memoryEnsureHasActiveProfile`,
  `memoryGetProfiles`, `normaliseHandle`, `normaliseTheme`);
* the lead-form builder helpers `normalizeKey` / `ensureUniqueKeys`;
* the autosave logic of `PublicProfileEditorPage.tsx` (`handleSave`, the
  `autosavePending` effect and the debounce effect), modelled as a small-step
  event system over the single-threaded browser event loop;
* the `onSubmit` decision chain of `PublicLeadForm.tsx`.

Modelling conventions: UUIDs produced by `randomId()` are modelled by
explicitly passed fresh natural numbers; ISO timestamp strings (compared by
`localeCompare`, i.e. chronologically) are modelled as naturals; JavaScript
string falsiness (`x || y`) is the emptiness test after the relevant
conversion; `structuredClone` is the identity on pure values.
-/

namespace LinketConnect

/-- JavaScript `String.prototype.trim` / `toLowerCase` on the ASCII fragment:
characters treated as trimmable whitespace. -/
def isJsSpace (c : Char) : Bool :=
  c = ' ' || c = '\t' || c = '\n' || c = '\r'

/-- `value.trim()` on the character list. -/
def trimChars (l : List Char) : List Char :=
  ((l.dropWhile isJsSpace).reverse.dropWhile isJsSpace).reverse

/-- `value.trim()`. -/
def jsTrim (s : String) : String :=
  String.mk (trimChars s.data)

/-- ASCII lowering of one character (`toLowerCase` restricted to A-Z). -/
def lowerChar (c : Char) : Char :=
  if 'A' ≤ c && c ≤ 'Z' then Char.ofNat (c.toNat + 32) else c

/-- `value.toLowerCase()`. -/
def jsToLower (s : String) : String :=
  String.mk (s.data.map lowerChar)

/-- JavaScript `a || b` for strings: `b` when `a` is empty (falsy). -/
def jsOr (a b : String) : String :=
  if a = "" then b else a

/-- Decimal digit character, as produced by JavaScript number-to-string
conversion for a single digit. -/
def digitChar (d : Nat) : Char :=
  match d with
  | 0 => '0' | 1 => '1' | 2 => '2' | 3 => '3' | 4 => '4'
  | 5 => '5' | 6 => '6' | 7 => '7' | 8 => '8' | 9 => '9'
  | _ => '*'

/-- Fuel-bounded digit expansion of a natural number, most significant digit
first; with fuel `> n` this is the usual decimal expansion. -/
def natDigitCharsAux : Nat → Nat → List Char
  | 0, _ => []
  | fuel + 1, n =>
    if n < 10 then [digitChar n]
    else natDigitCharsAux fuel (n / 10) ++ [digitChar (n % 10)]

/-- JavaScript `${n}` for a natural number: decimal notation. -/
def natToString (n : Nat) : String :=
  String.mk (natDigitCharsAux (n + 1) n)

/-! ## Profile store data model (`profile-service.ts`) -/

/-- A row of `profile_links` (`ProfileLinkRecord` in `types/db`). -/
structure ProfileLinkRecord where
  id : Nat
  profile_id : Nat
  user_id : String
  title : String
  url : String
  order_index : Nat
  is_active : Bool
  created_at : Nat
  updated_at : Nat
deriving DecidableEq

/-- A row of `user_profiles` together with its links (`ProfileWithLinks`). -/
structure ProfileWithLinks where
  id : Nat
  user_id : String
  name : String
  handle : String
  headline : Option String
  theme : String
  is_active : Bool
  created_at : Nat
  updated_at : Nat
  links : List ProfileLinkRecord
deriving DecidableEq

/-- One entry of `ProfilePayload.links`. -/
structure LinkPayload where
  id : Option Nat := none
  title : String
  url : String
deriving DecidableEq

/-- `ProfilePayload`: the body accepted by `saveProfileForUser`. -/
structure ProfilePayload where
  id : Option Nat := none
  name : String
  handle : String
  headline : Option String := none
  theme : String := "light"
  links : List LinkPayload := []
  active : Option Bool := none
deriving DecidableEq

/-- `normaliseHandle`: `handle.trim().toLowerCase()`. -/
def normaliseHandle (handle : String) : String :=
  jsToLower (jsTrim handle)

/-- `normaliseTheme`: lowercase the proposed theme (defaulting to "light")
and fall back to "light" when it is not an allowed theme name. -/
def normaliseTheme (theme : Option String) : String :=
  let allowed : List String :=
    ["light", "dark", "midnight", "forest", "gilded", "silver", "autumn"]
  let value := jsToLower (theme.getD "light")
  if allowed.contains value then value else "light"

/-- Number of profiles of the account with `is_active = true`. -/
def activeCount (profiles : List ProfileWithLinks) : Nat :=
  (profiles.filter (·.is_active)).length

/-- The spec's critical invariant: exactly one active profile when the
account has at least one profile, zero otherwise. -/
def profilesInvariant (profiles : List ProfileWithLinks) : Prop :=
  activeCount profiles = if profiles.isEmpty then 0 else 1

instance (profiles : List ProfileWithLinks) :
    Decidable (profilesInvariant profiles) := by
  unfold profilesInvariant; infer_instance

/-- `memoryEnsureSingleActiveProfile`: walk the account's profiles, promoting
the desired one (touching its `updated_at`) and demoting every other; the
boolean is the `found` flag — when it is `false` the source throws
`"Profile not found"` *after* the loop, so the demotions stay in place. -/
def memoryEnsureSingleActiveProfile (profiles : List ProfileWithLinks)
    (desiredActiveProfileId : Nat) (now : Nat) :
    List ProfileWithLinks × Bool :=
  (profiles.map fun p =>
      if p.id = desiredActiveProfileId then
        { p with is_active := true, updated_at := now }
      else
        { p with is_active := false },
   profiles.any fun p => p.id = desiredActiveProfileId)

/-- `memoryEnsureHasActiveProfile`: if the account has profiles but none is
active, activate `profiles[0]` (the first in insertion order), touching its
`updated_at`. -/
def memoryEnsureHasActiveProfile (profiles : List ProfileWithLinks)
    (now : Nat) : List ProfileWithLinks :=
  match profiles with
  | [] => []
  | first :: rest =>
    if (first :: rest).any (·.is_active) then first :: rest
    else { first with is_active := true, updated_at := now } :: rest

/-- The link-rebuild loop of `memorySaveProfileForUser`: the payload's link
list fully replaces the profile's links, re-numbered by array position;
payload entries whose `id` matches an existing link keep its id, creation
time and `is_active`; entries without any id consume fresh ids starting at
`fresh`.  An untitled link falls back to `Link <position>` and urls are
trimmed. -/
def rebuildLinks (userId : String) (profileId : Nat)
    (old : List ProfileLinkRecord) (now : Nat) :
    List LinkPayload → Nat → Nat → List ProfileLinkRecord
  | [], _, _ => []
  | link :: rest, index, fresh =>
    let existing := link.id.bind fun lid => old.find? fun l => l.id = lid
    let idAndFresh : Nat × Nat :=
      match existing, link.id with
      | some e, _ => (e.id, fresh)
      | none, some lid => (lid, fresh)
      | none, none => (fresh, fresh + 1)
    { id := idAndFresh.1
      profile_id := profileId
      user_id := userId
      title :=
        if jsTrim link.title = "" then "Link " ++ natToString (index + 1)
        else jsTrim link.title
      url := jsTrim link.url
      order_index := index
      is_active := (existing.map (·.is_active)).getD true
      created_at := (existing.map (·.created_at)).getD now
      updated_at := now } ::
    rebuildLinks userId profileId old now rest (index + 1) idAndFresh.2

/-- Tail of `memorySaveProfileForUser` after the scalar/link writes: when the
payload requests activation, run `memoryEnsureSingleActiveProfile` (whose
`found = false` case throws); otherwise activate the saved profile only when
no profile of the account is active; finally run
`memoryEnsureHasActiveProfile`. -/
def saveFinish (profiles : List ProfileWithLinks) (profileId : Nat)
    (active : Option Bool) (now : Nat) :
    Except String (List ProfileWithLinks) :=
  if active.getD false then
    if (memoryEnsureSingleActiveProfile profiles profileId now).2 then
      .ok (memoryEnsureHasActiveProfile
        (memoryEnsureSingleActiveProfile profiles profileId now).1 now)
    else .error "Profile not found"
  else if profiles.any (·.is_active) then
    .ok (memoryEnsureHasActiveProfile profiles now)
  else
    .ok (memoryEnsureHasActiveProfile
      (profiles.map fun p =>
        if p.id = profileId then { p with is_active := true } else p) now)

/-- `memorySaveProfileForUser`: validate name/handle (throwing before any
mutation), then either update the profile the payload's id denotes or append
a freshly created one (id `fresh`; its new links consume `fresh + 1`, ...),
replace its link set from the payload, and finish with the activation logic
of `saveFinish`.  The account-record bookkeeping (`ensureMemoryAccountRecord`)
touches only the separate accounts map and is omitted; the source's return
value is the deep clone of the saved profile, recoverable from the returned
store state by its id. -/
def memorySaveProfileForUser (userId : String)
    (profiles : List ProfileWithLinks) (payload : ProfilePayload)
    (now fresh : Nat) : Except String (List ProfileWithLinks) :=
  let handle := normaliseHandle payload.handle
  let theme := normaliseTheme (some payload.theme)
  let headline := payload.headline.bind fun h =>
    if jsTrim h = "" then none else some (jsTrim h)
  let name := jsTrim payload.name
  if name = "" then .error "Profile name is required"
  else if handle = "" then .error "Handle is required"
  else
    match payload.id.bind fun pid => profiles.find? fun p => p.id = pid with
    | some found =>
      let updated := { found with
        name := name, handle := handle, headline := headline,
        theme := theme, updated_at := now }
      let updated := { updated with
        links := rebuildLinks userId updated.id found.links now
          payload.links 0 fresh }
      let profiles1 := profiles.map fun p =>
        if p.id = found.id then updated else p
      saveFinish profiles1 found.id payload.active now
    | none =>
      let profile : ProfileWithLinks :=
        { id := fresh, user_id := userId, name := name, handle := handle,
          headline := headline, theme := theme, is_active := false,
          created_at := now, updated_at := now, links := [] }
      let profile := { profile with
        links := rebuildLinks userId fresh [] now payload.links 0 (fresh + 1) }
      saveFinish (profiles ++ [profile]) fresh payload.active now

/-- The row the create branch of `memorySaveProfileForUser` pushes (before
the activation logic). -/
def newProfileRecord (userId : String) (payload : ProfilePayload)
    (now fresh : Nat) : ProfileWithLinks :=
  { id := fresh, user_id := userId, name := jsTrim payload.name,
    handle := normaliseHandle payload.handle,
    headline := payload.headline.bind fun h =>
      if jsTrim h = "" then none else some (jsTrim h),
    theme := normaliseTheme (some payload.theme), is_active := false,
    created_at := now, updated_at := now,
    links := rebuildLinks userId fresh [] now payload.links 0 (fresh + 1) }

/-- The row the update branch of `memorySaveProfileForUser` writes over the
found profile (before the activation logic). -/
def updatedProfileRecord (userId : String) (payload : ProfilePayload)
    (found : ProfileWithLinks) (now fresh : Nat) : ProfileWithLinks :=
  { found with
    name := jsTrim payload.name,
    handle := normaliseHandle payload.handle,
    headline := payload.headline.bind fun h =>
      if jsTrim h = "" then none else some (jsTrim h),
    theme := normaliseTheme (some payload.theme), updated_at := now,
    links := rebuildLinks userId found.id found.links now payload.links 0
      fresh }

/-- `memoryDeleteProfileForUser`: splice out the first profile with the given
id (a silent no-op when absent, skipping the repair) and re-run
`memoryEnsureHasActiveProfile`. -/
def memoryDeleteProfileForUser (profiles : List ProfileWithLinks)
    (profileId : Nat) (now : Nat) : List ProfileWithLinks :=
  match profiles.findIdx? fun p => p.id = profileId with
  | none => profiles
  | some i => memoryEnsureHasActiveProfile (profiles.eraseIdx i) now

/-- `memorySetActiveProfileForUser`: run `memoryEnsureSingleActiveProfile`;
the second component models the thrown `"Profile not found"` and the first
component is the store contents after the call — on a throw the demotions
performed by the loop remain. -/
def memorySetActiveProfileForUser (profiles : List ProfileWithLinks)
    (profileId : Nat) (now : Nat) :
    List ProfileWithLinks × Option String :=
  let r := memoryEnsureSingleActiveProfile profiles profileId now
  if r.2 then (r.1, none) else (r.1, some "Profile not found")

/-- `memoryGetProfiles`: a copy of the account's profiles sorted by
`created_at` ascending (`localeCompare` on ISO timestamps is the
chronological order, and JavaScript's sort is stable). -/
def memoryGetProfiles (profiles : List ProfileWithLinks) :
    List ProfileWithLinks :=
  profiles.mergeSort fun a b => a.created_at ≤ b.created_at

/-! ## Sequences of profile-store operations

The spec's invariant quantifies over "every sequence of save (create or
update), activate, and delete operations on that account's profile set".
`runStoreOps` executes such a sequence against the in-memory store starting
from the empty profile set, threading a counter that supplies both the
monotone timestamps and the fresh ids (`randomId()` never repeats, which the
counter models).  The boolean of `applyStoreOp` records whether the
operation completed without throwing; for a save the two validation throws
happen before any mutation, while a failed activate leaves its demotions in
place (see `memorySetActiveProfileForUser`). -/

/-- One operation on one account's profile set. -/
inductive StoreOp where
  | save (payload : ProfilePayload)
  | activate (profileId : Nat)
  | delete (profileId : Nat)
deriving DecidableEq

/-- How far the counter advances past an operation: a save consumes one id
for a possibly new profile and one per possibly new link, and every
operation advances time. -/
def opCost : StoreOp → Nat
  | .save payload => 2 + payload.links.length
  | .activate _ => 1
  | .delete _ => 1

/-- Run one operation; the boolean is `true` iff it completed (returned)
rather than threw. -/
def applyStoreOp (userId : String) (profiles : List ProfileWithLinks)
    (op : StoreOp) (now fresh : Nat) : List ProfileWithLinks × Bool :=
  match op with
  | .save payload =>
    match memorySaveProfileForUser userId profiles payload now fresh with
    | .ok profiles' => (profiles', true)
    | .error _ => (profiles, false)
  | .activate pid =>
    let r := memorySetActiveProfileForUser profiles pid now
    (r.1, r.2.isNone)
  | .delete pid => (memoryDeleteProfileForUser profiles pid now, true)

/-- Run a sequence of operations; the final boolean is `true` iff every
operation in the sequence completed. -/
def runStoreOps (userId : String) :
    List StoreOp → List ProfileWithLinks → Nat →
    List ProfileWithLinks × Nat × Bool
  | [], profiles, c => (profiles, c, true)
  | op :: rest, profiles, c =>
    let r := applyStoreOp userId profiles op c c
    let rr := runStoreOps userId rest r.1 (c + opCost op)
    (rr.1, rr.2.1, r.2 && rr.2.2)

/-- The profile ids of the account are pairwise distinct (ids are UUIDs in
the source). -/
def idsNodup (profiles : List ProfileWithLinks) : Prop :=
  (profiles.map (·.id)).Nodup

/-- Every profile id is below the id counter (freshness). -/
def idsBelow (profiles : List ProfileWithLinks) (c : Nat) : Prop :=
  ∀ i ∈ profiles.map (·.id), i < c

instance (profiles : List ProfileWithLinks) :
    Decidable (idsNodup profiles) := by
  unfold idsNodup; infer_instance

/-- Inductive well-formedness of a reachable store state. -/
def storeWF (profiles : List ProfileWithLinks) (c : Nat) : Prop :=
  idsNodup profiles ∧ idsBelow profiles c ∧ profilesInvariant profiles

/-! ## Autosave reconciler (`PublicProfileEditorPage.tsx`)

Small-step model of the editor's autosave loop over the single-threaded
browser event loop.  Draft contents are abstracted to naturals.  The pieces
of React state/refs that the save path reads are modelled directly:

* `draft` / `savedProfile` — the editable state and the last canonical
  snapshot; `isDirty` is their structural inequality (`JSON.stringify`
  comparison in the source);
* `saving` — the `saving` state flag;
* `pending` — the `autosavePending` ref;
* `inflight` — the closure drafts of the fetches currently awaiting a
  response (a list so that "at most one save is in flight" is a property to
  prove, not one imposed by the model);
* `fired` — the log of save requests issued, newest first.

The debounce timer is armed exactly when the draft is dirty (the debounce
effect clears it otherwise and re-arms it on every dependency change), so
`timerFire` is simply enabled whenever `isDirty`; real-time durations are
abstracted away.  On a completed fetch the source runs `setDraft`/
`setSavedProfile`/`setSaving`, after which the `autosavePending` effect
fires one more `handleSave` when the flag is set and the draft is still
dirty; the same effect also runs after a mutation commits, which
`autosaveAfterEffects` captures.  A successful response is modelled as the
canonical echo of the draft that the in-flight save carried
(`mergeProfileUi ∘ mapProfile` of the response, merged against the closure
draft). -/

/-- Editor state relevant to the autosave discipline. -/
structure AutosaveState where
  draft : Nat
  savedProfile : Nat
  saving : Bool
  pending : Bool
  inflight : List Nat
  fired : List Nat
deriving DecidableEq

/-- `isDirty`: structural difference between draft and last snapshot. -/
def autosaveIsDirty (s : AutosaveState) : Bool :=
  s.draft != s.savedProfile

/-- `handleSave`: while a save is in flight only record the pending flag;
otherwise clear it, mark saving and issue the fetch carrying the current
draft. -/
def autosaveHandleSave (s : AutosaveState) : AutosaveState :=
  if s.saving then { s with pending := true }
  else
    { s with
      pending := false, saving := true,
      inflight := s.draft :: s.inflight, fired := s.draft :: s.fired }

/-- The `autosavePending` effect: after a commit, if no save is in flight,
a save was requested meanwhile and the draft is dirty, clear the flag and
run `handleSave`. -/
def autosaveAfterEffects (s : AutosaveState) : AutosaveState :=
  if !s.saving && s.pending && autosaveIsDirty s then
    autosaveHandleSave { s with pending := false }
  else s

/-- Events of one editor session: a user mutation of the draft, the debounce
timer firing, and the in-flight fetch resolving (ok or error). -/
inductive AutosaveEvent where
  | mutate (d : Nat)
  | timerFire
  | completeOk
  | completeErr
deriving DecidableEq

/-- One event-loop step; `none` when the event is not enabled in `s`. -/
def autosaveStep (s : AutosaveState) : AutosaveEvent → Option AutosaveState
  | .mutate d => some (autosaveAfterEffects { s with draft := d })
  | .timerFire =>
    if autosaveIsDirty s then some (autosaveHandleSave s) else none
  | .completeOk =>
    match s.inflight with
    | [] => none
    | d :: rest =>
      some (autosaveAfterEffects
        { s with
          draft := d, savedProfile := d, saving := false,
          inflight := rest })
  | .completeErr =>
    match s.inflight with
    | [] => none
    | _ :: rest =>
      some (autosaveAfterEffects { s with saving := false, inflight := rest })

/-- State right after the profile loaded: draft equals the snapshot, nothing
in flight, nothing pending. -/
def autosaveInit : AutosaveState :=
  { draft := 0, savedProfile := 0, saving := false, pending := false,
    inflight := [], fired := [] }

/-- Run an event list from the initial state; `none` if some event was not
enabled where it occurs. -/
def runAutosave (events : List AutosaveEvent) : Option AutosaveState :=
  events.foldl (fun acc e => acc.bind fun s => autosaveStep s e)
    (some autosaveInit)

/-! ## Lead-form field keys (`normalizeKey` / `ensureUniqueKeys`) -/

/-- Characters the key normalizer keeps: the regex class `[a-z0-9_]`. -/
def isKeyChar (c : Char) : Bool :=
  ('a' ≤ c && c ≤ 'z') || ('0' ≤ c && c ≤ '9') || c = '_'

/-- `replace(/[^a-z0-9_]+/g, "_")`: each maximal run of characters outside
`[a-z0-9_]` becomes a single underscore.  The boolean tracks whether the
previous character was part of such a run. -/
def collapseNonKey : Bool → List Char → List Char
  | _, [] => []
  | inRun, c :: rest =>
    if isKeyChar c then c :: collapseNonKey false rest
    else if inRun then collapseNonKey true rest
    else '_' :: collapseNonKey true rest

/-- `replace(/^_+|_+$/g, "")`: strip leading and trailing underscores. -/
def stripEdgeUnderscores (l : List Char) : List Char :=
  ((l.dropWhile (· = '_')).reverse.dropWhile (· = '_')).reverse

/-- `normalizeKey`: trim, lowercase, collapse runs of disallowed characters
to `_`, strip edge underscores, and truncate to 40 characters. -/
def normalizeKey (value : String) : String :=
  String.mk
    ((stripEdgeUnderscores
      (collapseNonKey false (jsToLower (jsTrim value)).data)).take 40)

/-- A field of the lead-form builder (`BuilderField`); only the members the
key de-duplication reads are carried alongside the key itself. -/
structure BuilderField where
  id : String
  key : String
  label : String
  type : String
  required : Bool
deriving DecidableEq

/-- The candidate key `` `${base}_${counter}` `` tried by the collision
loop of `ensureUniqueKeys`. -/
def keyCandidate (base : String) (counter : Nat) : String :=
  base ++ "_" ++ natToString counter

/-- The `while (used.has(nextKey))` loop of `ensureUniqueKeys`, with
explicit fuel: try `nextKey`, then `` `${base}_1` ``, `` `${base}_2` ``, ...
The callers pass fuel `used.length + 1`, which `freshKeyAux_not_mem` shows
is enough for the loop to exit exactly as the unbounded source loop does. -/
def freshKeyAux (used : List String) (base : String) :
    Nat → Nat → String → String
  | 0, _, nextKey => nextKey
  | fuel + 1, counter, nextKey =>
    if used.contains nextKey then
      freshKeyAux used base fuel (counter + 1) (keyCandidate base counter)
    else nextKey

/-- The sequence of candidate keys the collision loop of `freshKeyAux`
inspects, in order: the starting key, then `` `${base}_counter` ``,
`` `${base}_(counter+1)` ``, ... (a proof device for the loop's
termination-within-fuel argument). -/
def triedKeys (base : String) : Nat → Nat → String → List String
  | 0, _, _ => []
  | fuel + 1, counter, key =>
    key :: triedKeys base fuel (counter + 1) (keyCandidate base counter)

/-- Body of `ensureUniqueKeys`: map over the fields threading the `used`
set, renaming each field to the first free candidate derived from its key
or label. -/
def ensureUniqueKeysGo (used : List String) :
    List BuilderField → List BuilderField
  | [] => []
  | field :: rest =>
    let base := normalizeKey (jsOr field.key (jsOr field.label "field"))
    let baseOr := jsOr base "field"
    let nextKey := freshKeyAux used baseOr (used.length + 1) 1 baseOr
    { field with key := nextKey } :: ensureUniqueKeysGo (nextKey :: used) rest

/-- `ensureUniqueKeys`: de-duplicate the field keys of a builder state. -/
def ensureUniqueKeys (fields : List BuilderField) : List BuilderField :=
  ensureUniqueKeysGo [] fields

/-! ## Public lead form submission (`PublicLeadForm.tsx`) -/

/-- An answer held in the form's `answers` map (string inputs or checkbox
booleans). -/
inductive LeadAnswer where
  | str (s : String)
  | boolean (b : Bool)
deriving DecidableEq

/-- A `DynamicField` as loaded for the public form (already filtered to
active fields by the fetch). -/
structure DynamicField where
  id : String
  key : String
  label : String
  type : String
  required : Bool
  is_hidden : Bool
deriving DecidableEq

/-- `FormSettings` (members the submit path reads). -/
structure FormSettings where
  successMessage : String
  redirectEnabled : Bool
  redirectUrl : String
  consentEnabled : Bool
deriving DecidableEq

/-- `fieldKey`: `normalizeKey(field.key || field.label || field.id)`. -/
def fieldKey (field : DynamicField) : String :=
  normalizeKey (jsOr field.key (jsOr field.label field.id))

/-- Lookup in the `answers` map. -/
def lookupAnswer (answers : List (String × LeadAnswer)) (key : String) :
    Option LeadAnswer :=
  (answers.find? fun a => a.1 = key).map (·.2)

/-- Whether a required field counts as missing in `validateRequired`:
checkboxes must be exactly `true`; other fields must have a non-empty,
non-whitespace value (absent and `false` values are falsy). -/
def answerMissing (field : DynamicField)
    (value : Option LeadAnswer) : Bool :=
  if field.type = "checkbox" then value != some (.boolean true)
  else
    match value with
    | none => true
    | some (.boolean b) => !b
    | some (.str s) => s = "" || jsTrim s = ""

/-- `validateRequired`: the consent error takes precedence, then the
required-field check; `none` means the validation passed. -/
def validateRequired (fields : List DynamicField)
    (answers : List (String × LeadAnswer)) (consentChecked : Bool)
    (settings : FormSettings) : Option String :=
  let missing := fields.filter fun field =>
    field.required && answerMissing field (lookupAnswer answers (fieldKey field))
  if settings.consentEnabled && !consentChecked then
    some "Please accept the consent checkbox."
  else if missing.length ≠ 0 then
    some "Please fill in the required fields."
  else none

/-- String view of an answer as used by the name/email extraction of
`buildLeadPayload` (boolean values are not meaningful strings there and are
modelled as empty). -/
def answerString (value : Option LeadAnswer) : String :=
  match value with
  | some (.str s) => s
  | _ => ""

/-- `combineName`: join the non-empty parts of first/last name. -/
def combineName (first last : String) : String :=
  jsTrim (String.intercalate " " (([first, last].filter (· ≠ ""))))

/-- The name/email part of `buildLeadPayload`: fill `values` from the
fields, then extract the lead's name and e-mail via the best-effort key
matching. -/
def leadNameEmail (fields : List DynamicField)
    (answers : List (String × LeadAnswer)) : String × String :=
  let valueAt := fun (key : String) =>
    if (fields.map fieldKey).contains key then
      answerString (lookupAnswer answers key)
    else ""
  (jsTrim (jsOr (valueAt "name")
      (jsOr (combineName (valueAt "first_name") (valueAt "last_name"))
        (valueAt "full_name"))),
   jsTrim (valueAt "email"))

/-- Observable outcome of one `onSubmit` run. -/
structure LeadSubmitResult where
  captureAttempted : Bool
  persisted : Bool
  notifyForwarded : Bool
  successToast : Option String
  errorToast : Option String
  formReset : Bool
  redirected : Bool
deriving DecidableEq

/-- The `onSubmit` decision chain: owner gate, `validateRequired`, honeypot
gate, name/e-mail gate, then the insert (whose success the external store
decides, modelled by `insertOk`) with the notify forward, reset, success
toast and optional redirect.  The honeypot branch shows the success toast
and resets the form without touching the network. -/
def publicLeadFormOnSubmit (ownerId : Option String)
    (fields : List DynamicField) (answers : List (String × LeadAnswer))
    (consentChecked : Bool) (settings : FormSettings) (trap : String)
    (insertOk : Bool) : LeadSubmitResult :=
  match ownerId with
  | none =>
    { captureAttempted := false, persisted := false, notifyForwarded := false,
      successToast := none, errorToast := some "Owner not found.",
      formReset := false, redirected := false }
  | some _ =>
    match validateRequired fields answers consentChecked settings with
    | some msg =>
      { captureAttempted := false, persisted := false,
        notifyForwarded := false, successToast := none,
        errorToast := some msg, formReset := false, redirected := false }
    | none =>
      if jsTrim trap ≠ "" then
        { captureAttempted := false, persisted := false,
          notifyForwarded := false,
          successToast := some settings.successMessage, errorToast := none,
          formReset := true, redirected := false }
      else
        let nameEmail := leadNameEmail fields answers
        if nameEmail.1 = "" || nameEmail.2 = "" then
          { captureAttempted := false, persisted := false,
            notifyForwarded := false, successToast := none,
            errorToast := some "Name and email required.",
            formReset := false, redirected := false }
        else if insertOk then
          { captureAttempted := true, persisted := true,
            notifyForwarded := true,
            successToast := some settings.successMessage, errorToast := none,
            formReset := true,
            redirected := settings.redirectEnabled && settings.redirectUrl ≠ "" }
        else
          { captureAttempted := true, persisted := false,
            notifyForwarded := false, successToast := none,
            errorToast := some "Insert failed", formReset := false,
            redirected := false }

/-! ## Concrete fixtures used by witnesses and counterexamples -/

/-- The spec's first end-to-end payload: Jess's profile with one link. -/
def jessPayload : ProfilePayload :=
  { name := "Jess", handle := "jess",
    links := [{ title := "Site", url := "https://jess.dev" }] }

/-- The spec's second end-to-end payload: a new profile saved with
`active: true`. -/
def workPayload : ProfilePayload :=
  { name := "Work", handle := "jess-work", active := some true }

/-- Store state after a successful save of Jess's profile followed by an
activate with an id that belongs to no profile of the account. -/
def c1StateAfterTwo : List ProfileWithLinks :=
  (runStoreOps "acc_1" [.save jessPayload, .activate 999] [] 0).1

/-- Counter value after those two operations. -/
def c1CounterAfterTwo : Nat :=
  (runStoreOps "acc_1" [.save jessPayload, .activate 999] [] 0).2.1

/-- Three creates (the third activated), then an update of the second:
leaves profiles ids 0, 2, 4 where id 4 is active and id 2 is the
most-recently-updated of the others. -/
def c2Ops : List StoreOp :=
  [.save { name := "A", handle := "a" },
   .save { name := "B", handle := "b" },
   .save { name := "C", handle := "c", active := some true },
   .save { id := some 2, name := "B2", handle := "b" }]

/-- The store state those four operations reach. -/
def c2State : List ProfileWithLinks :=
  (runStoreOps "acc_1" c2Ops [] 0).1

/-- Two-profile account where the first profile is active (for the
two-profile instance of the delete-promotes claim). -/
def p1Active : ProfileWithLinks :=
  { id := 1, user_id := "acc_1", name := "P1", handle := "p1",
    headline := none, theme := "light", is_active := true,
    created_at := 0, updated_at := 0, links := [] }

/-- The second, inactive profile of that account. -/
def p2Inactive : ProfileWithLinks :=
  { id := 2, user_id := "acc_1", name := "P2", handle := "p2",
    headline := none, theme := "light", is_active := false,
    created_at := 1, updated_at := 1, links := [] }

/-- Save payload whose handle needs normalisation. -/
def myHandlePayload : ProfilePayload :=
  { name := "Mine", handle := " My-Handle " }

/-- A different profile of the same account colliding on the normalized
handle. -/
def myHandlePayload2 : ProfilePayload :=
  { name := "Other", handle := "MY-HANDLE" }

/-- Both handle saves, run in sequence from an empty account. -/
def c4Run : List ProfileWithLinks × Nat × Bool :=
  runStoreOps "acc_1" [.save myHandlePayload, .save myHandlePayload2] [] 0

/-- An existing profile already holding handle "my-handle" (for the
duplicate-handle witness). -/
def mineProfile : ProfileWithLinks :=
  { id := 0, user_id := "acc_1", name := "Mine", handle := "my-handle",
    headline := none, theme := "light", is_active := true,
    created_at := 0, updated_at := 0, links := [] }

/-- Update payload replacing the links of profile id 7 with A and B. -/
def replaceLinksPayload : ProfilePayload :=
  { id := some 7, name := "Prior", handle := "prior",
    links := [{ id := none, title := "A", url := "https://a" },
              { id := none, title := "B", url := "https://b" }] }

/-- A profile with a pre-existing link set (for the link round-trip
witness). -/
def priorProfile : ProfileWithLinks :=
  { id := 7, user_id := "acc_1", name := "Prior", handle := "prior",
    headline := none, theme := "dark", is_active := true,
    created_at := 0, updated_at := 0,
    links := [{ id := 3, profile_id := 7, user_id := "acc_1",
                title := "Old", url := "https://old", order_index := 0,
                is_active := true, created_at := 0, updated_at := 0 }] }

/-- An account with one active profile (for the non-atomicity witness). -/
def soloProfile : ProfileWithLinks :=
  { id := 0, user_id := "acc_1", name := "Solo", handle := "solo",
    headline := none, theme := "light", is_active := true,
    created_at := 0, updated_at := 0, links := [] }

/-- Editor state with a save in flight (carrying draft 1), a newer draft 2,
and a pending request recorded — reached by
`[mutate 1, timerFire, mutate 2, timerFire]`. -/
def c7BusyState : AutosaveState :=
  { draft := 2, savedProfile := 0, saving := true, pending := true,
    inflight := [1], fired := [1] }

/-- Editor state after the in-flight save completes successfully from
`c7BusyState`: the draft mutation 2 has been overwritten by the canonical
response and no additional save fired. -/
def c7AfterOkState : AutosaveState :=
  { draft := 1, savedProfile := 1, saving := false, pending := true,
    inflight := [], fired := [1] }

/-- A builder field labeled "Email" with no explicit key. -/
def emailField : BuilderField :=
  { id := "f1", key := "", label := "Email", type := "email",
    required := true }

/-- A second field also labeled "Email". -/
def emailField2 : BuilderField :=
  { id := "f2", key := "", label := "Email", type := "email",
    required := false }

/-- A required text field of the public lead form. -/
def requiredNameField : DynamicField :=
  { id := "d1", key := "name", label := "Name", type := "text",
    required := true, is_hidden := false }

/-- The form settings defaults that the submit path reads. -/
def defaultFormSettings : FormSettings :=
  { successMessage := "Thanks! I'll reach out soon.",
    redirectEnabled := false, redirectUrl := "", consentEnabled := false }

/-! ## General lemmas about the store operations -/

theorem activeCount_eq_zero (profiles : List ProfileWithLinks)
    (h : ∀ p ∈ profiles, p.is_active = false) : activeCount profiles = 0 := by
  unfold activeCount
  rw [List.length_eq_zero]
  rw [List.filter_eq_nil_iff]
  intro p hp
  simp [h p hp]

theorem ensureSingle_miss (profiles : List ProfileWithLinks) (pid now : Nat)
    (hmiss : ∀ p ∈ profiles, p.id ≠ pid) :
    memoryEnsureSingleActiveProfile profiles pid now =
      (profiles.map fun p => { p with is_active := false }, false) := by
  unfold memoryEnsureSingleActiveProfile
  rw [Prod.mk.injEq]
  constructor
  · apply List.map_congr_left
    intro p hp
    rw [if_neg (hmiss p hp)]
  · simp only [List.any_eq_false, decide_eq_true_eq]
    exact hmiss

theorem activeCount_nil : activeCount [] = 0 := rfl

theorem activeCount_cons (p : ProfileWithLinks) (ps : List ProfileWithLinks) :
    activeCount (p :: ps) =
      (if p.is_active then 1 else 0) + activeCount ps := by
  by_cases h : p.is_active <;>
    simp [activeCount, List.filter_cons, h, Nat.add_comm]

theorem activeCount_pos_of_any (profiles : List ProfileWithLinks)
    (h : profiles.any (·.is_active) = true) : activeCount profiles ≠ 0 := by
  rcases List.any_eq_true.mp h with ⟨p, hp, hact⟩
  unfold activeCount
  intro hlen
  rw [List.length_eq_zero] at hlen
  have : p ∈ profiles.filter (·.is_active) :=
    List.mem_filter.mpr ⟨hp, hact⟩
  rw [hlen] at this
  exact (List.not_mem_nil p) this

theorem any_of_activeCount_ne_zero (profiles : List ProfileWithLinks)
    (h : activeCount profiles ≠ 0) : profiles.any (·.is_active) = true := by
  unfold activeCount at h
  have hne : profiles.filter (·.is_active) ≠ [] := by
    intro hnil; exact h (by rw [hnil]; rfl)
  rcases List.exists_mem_of_ne_nil _ hne with ⟨p, hp⟩
  rcases List.mem_filter.mp hp with ⟨hmem, hact⟩
  exact List.any_eq_true.mpr ⟨p, hmem, hact⟩

theorem activeCount_not_any (profiles : List ProfileWithLinks)
    (h : ¬ profiles.any (·.is_active) = true) : activeCount profiles = 0 := by
  by_contra hne
  exact h (any_of_activeCount_ne_zero profiles hne)

theorem ids_map_preserve (profiles : List ProfileWithLinks)
    (f : ProfileWithLinks → ProfileWithLinks)
    (h : ∀ p ∈ profiles, (f p).id = p.id) :
    (profiles.map f).map (·.id) = profiles.map (·.id) := by
  rw [List.map_map]
  exact List.map_congr_left fun p hp => h p hp

theorem filter_id_length_one (profiles : List ProfileWithLinks) (pid : Nat)
    (hnd : idsNodup profiles) (hmem : pid ∈ profiles.map (·.id)) :
    (profiles.filter fun p => p.id = pid).length = 1 := by
  induction profiles with
  | nil => simp at hmem
  | cons h t ih =>
    rw [List.map_cons] at hmem
    have hnd' := hnd
    unfold idsNodup at hnd'
    rw [List.map_cons, List.nodup_cons] at hnd'
    rcases List.mem_cons.mp hmem with heq | hmemt
    · have htnone : ∀ q ∈ t, ¬ (q.id = pid) := by
        intro q hq hqe
        exact hnd'.1 (heq ▸ hqe ▸ List.mem_map_of_mem (·.id) hq)
      rw [List.filter_cons]
      rw [List.filter_eq_nil_iff.mpr (by
        intro q hq
        simp only [decide_eq_true_eq]
        exact htnone q hq)]
      simp [heq]
    · have hne : ¬ (h.id = pid) := by
        intro he
        exact hnd'.1 (he ▸ hmemt)
      rw [List.filter_cons, if_neg (by simp [hne])]
      exact ih hnd'.2 hmemt

theorem activeCount_promoteDemote (profiles : List ProfileWithLinks)
    (pid now : Nat) :
    activeCount (profiles.map fun p =>
        if p.id = pid then { p with is_active := true, updated_at := now }
        else { p with is_active := false }) =
      (profiles.filter fun p => p.id = pid).length := by
  induction profiles with
  | nil => rfl
  | cons h t ih =>
    by_cases he : h.id = pid
    · simp [List.filter_cons, he, activeCount_cons, ih, Nat.add_comm]
    · simp [List.filter_cons, he, activeCount_cons, ih]

theorem activeCount_setActiveAt (profiles : List ProfileWithLinks)
    (pid : Nat) (hall : ∀ p ∈ profiles, p.is_active = false) :
    activeCount (profiles.map fun p =>
        if p.id = pid then { p with is_active := true } else p) =
      (profiles.filter fun p => p.id = pid).length := by
  induction profiles with
  | nil => rfl
  | cons h t ih =>
    have hh := hall h (List.mem_cons_self h t)
    have ht : ∀ p ∈ t, p.is_active = false := fun p hp =>
      hall p (List.mem_cons_of_mem h hp)
    by_cases he : h.id = pid
    · simp [List.filter_cons, he, activeCount_cons, ih ht, Nat.add_comm]
    · simp [List.filter_cons, he, activeCount_cons, ih ht, hh]

theorem ensureHasActive_of_any (profiles : List ProfileWithLinks) (now : Nat)
    (h : profiles.any (·.is_active) = true) :
    memoryEnsureHasActiveProfile profiles now = profiles := by
  cases profiles with
  | nil => rfl
  | cons first rest => simp [memoryEnsureHasActiveProfile, h]

theorem ensureHasActive_ids (profiles : List ProfileWithLinks) (now : Nat) :
    (memoryEnsureHasActiveProfile profiles now).map (·.id) =
      profiles.map (·.id) := by
  cases profiles with
  | nil => rfl
  | cons first rest =>
    by_cases h : (first :: rest).any (·.is_active) <;>
      simp [memoryEnsureHasActiveProfile, h]

theorem ensureHasActive_not_any (first : ProfileWithLinks)
    (rest : List ProfileWithLinks) (now : Nat)
    (h : ¬ ((first :: rest).any (·.is_active) = true)) :
    memoryEnsureHasActiveProfile (first :: rest) now =
      { first with is_active := true, updated_at := now } :: rest := by
  simp [memoryEnsureHasActiveProfile, h]

theorem profilesInvariant_of_one (profiles : List ProfileWithLinks)
    (hne : profiles ≠ []) (h1 : activeCount profiles = 1) :
    profilesInvariant profiles := by
  unfold profilesInvariant
  cases profiles with
  | nil => exact absurd rfl hne
  | cons a t => simpa using h1

theorem ne_nil_of_mem_ids (profiles : List ProfileWithLinks) (pid : Nat)
    (hmem : pid ∈ profiles.map (·.id)) : profiles ≠ [] := by
  intro hnil
  rw [hnil] at hmem
  simp at hmem

theorem ensureHasActive_invariant (profiles : List ProfileWithLinks)
    (now : Nat) (hle : activeCount profiles ≤ 1) :
    profilesInvariant (memoryEnsureHasActiveProfile profiles now) := by
  cases profiles with
  | nil =>
    show profilesInvariant []
    decide
  | cons first rest =>
    by_cases h : (first :: rest).any (·.is_active)
    · rw [ensureHasActive_of_any _ _ h]
      have hpos : activeCount (first :: rest) ≠ 0 :=
        activeCount_pos_of_any _ h
      have hone : activeCount (first :: rest) = 1 := by omega
      exact profilesInvariant_of_one _ (by simp) hone
    · have hall : activeCount (first :: rest) = 0 :=
        activeCount_not_any _ (by simpa using h)
      have hrest : activeCount rest = 0 := by
        rw [activeCount_cons] at hall
        by_cases hf : first.is_active
        · rw [hf] at hall; simp at hall
        · rw [Bool.not_eq_true] at hf
          rw [hf] at hall
          simpa using hall
      rw [ensureHasActive_not_any first rest now h]
      apply profilesInvariant_of_one _ (by simp)
      rw [activeCount_cons]
      simp [hrest]

theorem mem_ids_any (profiles : List ProfileWithLinks) (pid : Nat)
    (h : pid ∈ profiles.map (·.id)) :
    (profiles.any fun p => p.id = pid) = true := by
  rcases List.mem_map.mp h with ⟨p, hp, hpe⟩
  exact List.any_eq_true.mpr ⟨p, hp, by simp [hpe]⟩

theorem saveFinish_ok (profiles : List ProfileWithLinks) (pid : Nat)
    (act : Option Bool) (now : Nat) (r : List ProfileWithLinks)
    (hnd : idsNodup profiles) (hmem : pid ∈ profiles.map (·.id))
    (hle : activeCount profiles ≤ 1)
    (h : saveFinish profiles pid act now = .ok r) :
    profilesInvariant r ∧ r.map (·.id) = profiles.map (·.id) := by
  have hne : profiles ≠ [] := ne_nil_of_mem_ids profiles pid hmem
  unfold saveFinish at h
  by_cases ha : act.getD false
  · rw [if_pos ha] at h
    rw [if_pos (by
      show (memoryEnsureSingleActiveProfile profiles pid now).2 = true
      unfold memoryEnsureSingleActiveProfile
      exact mem_ids_any profiles pid hmem)] at h
    have hcount :
        activeCount (memoryEnsureSingleActiveProfile profiles pid now).1
          = 1 := by
      unfold memoryEnsureSingleActiveProfile
      rw [activeCount_promoteDemote]
      exact filter_id_length_one profiles pid hnd hmem
    have hids :
        (memoryEnsureSingleActiveProfile profiles pid now).1.map (·.id) =
          profiles.map (·.id) := by
      unfold memoryEnsureSingleActiveProfile
      apply ids_map_preserve
      intro p hp
      by_cases he : p.id = pid <;> simp [he]
    rw [ensureHasActive_of_any _ _
      (any_of_activeCount_ne_zero _ (by omega))] at h
    cases h
    refine ⟨?_, hids⟩
    apply profilesInvariant_of_one _ ?_ hcount
    intro hnil
    have := congrArg (List.map (·.id)) hnil
    rw [hids] at this
    simp only [List.map_nil] at this
    exact hne (List.map_eq_nil_iff.mp this)
  · rw [if_neg ha] at h
    by_cases hany : profiles.any (·.is_active) = true
    · rw [if_pos hany] at h
      rw [ensureHasActive_of_any _ _ hany] at h
      cases h
      have hpos := activeCount_pos_of_any _ hany
      exact ⟨profilesInvariant_of_one _ hne (by omega), rfl⟩
    · rw [if_neg (by simpa using hany)] at h
      have hall : ∀ p ∈ profiles, p.is_active = false := by
        intro p hp
        by_contra hc
        exact hany (List.any_eq_true.mpr ⟨p, hp, by
          simpa using Bool.not_eq_false p.is_active |>.mp hc⟩)
      have hcount :
          activeCount (profiles.map fun p =>
            if p.id = pid then { p with is_active := true } else p) = 1 := by
        rw [activeCount_setActiveAt profiles pid hall]
        exact filter_id_length_one profiles pid hnd hmem
      have hids :
          (profiles.map fun p =>
              if p.id = pid then { p with is_active := true } else p).map
            (·.id) = profiles.map (·.id) := by
        apply ids_map_preserve
        intro p hp
        by_cases he : p.id = pid <;> simp [he]
      rw [ensureHasActive_of_any _ _
        (any_of_activeCount_ne_zero _ (by omega))] at h
      cases h
      refine ⟨?_, hids⟩
      apply profilesInvariant_of_one _ ?_ hcount
      simp [List.map_eq_nil_iff, hne]

theorem activeCount_le_one_of_invariant (profiles : List ProfileWithLinks)
    (h : profilesInvariant profiles) : activeCount profiles ≤ 1 := by
  unfold profilesInvariant at h
  rw [h]
  split <;> omega

theorem idsBelow_mono (profiles : List ProfileWithLinks) (c c' : Nat)
    (hcc : c ≤ c') (h : idsBelow profiles c) : idsBelow profiles c' :=
  fun i hi => lt_of_lt_of_le (h i hi) hcc

theorem activeCount_replace (ps : List ProfileWithLinks)
    (found upd : ProfileWithLinks) (hnd : idsNodup ps) (hmem : found ∈ ps)
    (hact : upd.is_active = found.is_active) :
    activeCount (ps.map fun p => if p.id = found.id then upd else p) =
      activeCount ps := by
  induction ps with
  | nil => rfl
  | cons h t ih =>
    have hnd' := hnd
    unfold idsNodup at hnd'
    rw [List.map_cons, List.nodup_cons] at hnd'
    by_cases he : h.id = found.id
    · have hfh : found = h := by
        rcases List.mem_cons.mp hmem with h1 | h2
        · exact h1
        · exact absurd (he ▸ List.mem_map_of_mem (·.id) h2) hnd'.1
      have htail :
          (t.map fun p => if p.id = found.id then upd else p) = t := by
        have hcong : ∀ q ∈ t, (if q.id = found.id then upd else q) = q := by
          intro q hq
          rw [if_neg]
          intro hqe
          exact hnd'.1 (he ▸ hqe ▸ List.mem_map_of_mem (·.id) hq)
        rw [List.map_congr_left hcong]
        simp
      rw [List.map_cons, if_pos he, htail, activeCount_cons,
        activeCount_cons, hact, hfh]
    · have hmt : found ∈ t := by
        rcases List.mem_cons.mp hmem with h1 | h2
        · exact absurd (h1 ▸ rfl) he
        · exact h2
      rw [List.map_cons, if_neg he, activeCount_cons, activeCount_cons,
        ih hnd'.2 hmt]

theorem memorySave_ok_wf (u : String) (ps : List ProfileWithLinks)
    (payload : ProfilePayload) (now fresh : Nat) (r : List ProfileWithLinks)
    (hnd : idsNodup ps) (hbelow : idsBelow ps fresh)
    (hinv : profilesInvariant ps)
    (h : memorySaveProfileForUser u ps payload now fresh = .ok r) :
    profilesInvariant r ∧ idsNodup r ∧ idsBelow r (fresh + 1) := by
  have hle : activeCount ps ≤ 1 := activeCount_le_one_of_invariant ps hinv
  simp only [memorySaveProfileForUser] at h
  by_cases hname : jsTrim payload.name = ""
  · rw [if_pos hname] at h; simp at h
  rw [if_neg hname] at h
  by_cases hhandle : normaliseHandle payload.handle = ""
  · rw [if_pos hhandle] at h; simp at h
  rw [if_neg hhandle] at h
  split at h
  · rename_i found hfind
    have hmem : found ∈ ps := by
      cases hpid : payload.id with
      | none => rw [hpid] at hfind; simp at hfind
      | some pid0 =>
        rw [hpid] at hfind
        simp only [Option.some_bind] at hfind
        exact List.mem_of_find?_eq_some hfind
    have key : ∀ upd : ProfileWithLinks,
        saveFinish (ps.map fun p => if p.id = found.id then upd else p)
          found.id payload.active now = .ok r →
        upd.id = found.id → upd.is_active = found.is_active →
        profilesInvariant r ∧ idsNodup r ∧ idsBelow r (fresh + 1) := by
      intro upd hsf hupd hact
      have hids1 :
          (ps.map fun p => if p.id = found.id then upd else p).map (·.id) =
            ps.map (·.id) := by
        apply ids_map_preserve
        intro p hp
        by_cases he : p.id = found.id
        · rw [if_pos he, hupd, he]
        · rw [if_neg he]
      have hcnt := activeCount_replace ps found upd hnd hmem hact
      obtain ⟨hinvr, hidsr⟩ := saveFinish_ok _ found.id payload.active now r
        (by unfold idsNodup; rw [hids1]; exact hnd)
        (by rw [hids1]; exact List.mem_map_of_mem (·.id) hmem)
        (by rw [hcnt]; exact hle) hsf
      rw [hids1] at hidsr
      refine ⟨hinvr, ?_, ?_⟩
      · unfold idsNodup
        rw [hidsr]
        exact hnd
      · intro i hi
        rw [hidsr] at hi
        exact lt_of_lt_of_le (hbelow i hi) (Nat.le_succ fresh)
    exact key _ h rfl rfl
  · rename_i hfind
    have hfreshnot : fresh ∉ ps.map (·.id) := by
      intro hcontra
      exact absurd (hbelow fresh hcontra) (lt_irrefl fresh)
    have key : ∀ newp : ProfileWithLinks,
        saveFinish (ps ++ [newp]) fresh payload.active now = .ok r →
        newp.id = fresh → newp.is_active = false →
        profilesInvariant r ∧ idsNodup r ∧ idsBelow r (fresh + 1) := by
      intro newp hsf hid hact
      have hids1 : (ps ++ [newp]).map (·.id) = ps.map (·.id) ++ [fresh] := by
        rw [List.map_append, List.map_singleton, hid]
      have hcnt1 : activeCount (ps ++ [newp]) = activeCount ps := by
        unfold activeCount
        rw [List.filter_append]
        simp [hact]
      have hndapp : (ps.map (·.id) ++ [fresh]).Nodup := by
        rw [List.nodup_append]
        exact ⟨hnd, List.nodup_singleton fresh, by
          intro i hi hi2
          rw [List.mem_singleton] at hi2
          exact hfreshnot (hi2 ▸ hi)⟩
      obtain ⟨hinvr, hidsr⟩ := saveFinish_ok _ fresh payload.active now r
        (by unfold idsNodup; rw [hids1]; exact hndapp)
        (by
          rw [hids1]
          exact List.mem_append_right _ (List.mem_singleton.mpr rfl))
        (by rw [hcnt1]; exact hle) hsf
      rw [hids1] at hidsr
      refine ⟨hinvr, ?_, ?_⟩
      · unfold idsNodup
        rw [hidsr]
        exact hndapp
      · intro i hi
        rw [hidsr] at hi
        rcases List.mem_append.mp hi with h1 | h2
        · exact lt_of_lt_of_le (hbelow i h1) (Nat.le_succ fresh)
        · rw [List.mem_singleton] at h2
          omega
    exact key _ h rfl rfl

theorem applyStoreOp_wf (u : String) (ps : List ProfileWithLinks)
    (op : StoreOp) (c : Nat) (hwf : storeWF ps c)
    (hok : (applyStoreOp u ps op c c).2 = true) :
    storeWF (applyStoreOp u ps op c c).1 (c + opCost op) := by
  obtain ⟨hnd, hbelow, hinv⟩ := hwf
  cases op with
  | save payload =>
    cases hsave : memorySaveProfileForUser u ps payload c c with
    | ok r =>
      simp only [applyStoreOp, hsave]
      obtain ⟨hinvr, hndr, hbelowr⟩ :=
        memorySave_ok_wf u ps payload c c r hnd hbelow hinv hsave
      refine ⟨hndr, ?_, hinvr⟩
      apply idsBelow_mono r (c + 1) _ _ hbelowr
      simp [opCost]
      omega
    | error e =>
      simp [applyStoreOp, hsave] at hok
  | activate pid =>
    simp only [applyStoreOp] at hok ⊢
    unfold memorySetActiveProfileForUser at hok ⊢
    by_cases hfound : (memoryEnsureSingleActiveProfile ps pid c).2 = true
    · rw [if_pos hfound]
      have hany : (ps.any fun p => p.id = pid) = true := hfound
      have hmem : pid ∈ ps.map (·.id) := by
        rcases List.any_eq_true.mp hany with ⟨p, hp, hpe⟩
        simp only [decide_eq_true_eq] at hpe
        exact hpe ▸ List.mem_map_of_mem (·.id) hp
      have hids :
          (memoryEnsureSingleActiveProfile ps pid c).1.map (·.id) =
            ps.map (·.id) := by
        unfold memoryEnsureSingleActiveProfile
        apply ids_map_preserve
        intro p hp
        by_cases he : p.id = pid <;> simp [he]
      refine ⟨?_, ?_, ?_⟩
      · unfold idsNodup
        rw [hids]
        exact hnd
      · intro i hi
        rw [hids] at hi
        exact lt_of_lt_of_le (hbelow i hi) (by simp [opCost])
      · apply profilesInvariant_of_one
        · intro hnil
          have := congrArg (List.map (·.id)) hnil
          rw [hids] at this
          simp only [List.map_nil] at this
          exact ne_nil_of_mem_ids ps pid hmem (List.map_eq_nil_iff.mp this)
        · show activeCount (memoryEnsureSingleActiveProfile ps pid c).1 = 1
          unfold memoryEnsureSingleActiveProfile
          rw [activeCount_promoteDemote]
          exact filter_id_length_one ps pid hnd hmem
    · rw [if_neg hfound] at hok
      simp at hok
  | delete pid =>
    simp only [applyStoreOp]
    unfold memoryDeleteProfileForUser
    cases hidx : ps.findIdx? fun p => p.id = pid with
    | none =>
      show storeWF ps (c + opCost (StoreOp.delete pid))
      refine ⟨hnd, ?_, hinv⟩
      intro i hi
      exact lt_of_lt_of_le (hbelow i hi) (by simp [opCost])
    | some i =>
      show storeWF (memoryEnsureHasActiveProfile (ps.eraseIdx i) c)
        (c + opCost (StoreOp.delete pid))
      have hsub : List.Sublist (ps.eraseIdx i) ps :=
        List.eraseIdx_sublist ps i
      have hsubm : List.Sublist ((ps.eraseIdx i).map (·.id))
          (ps.map (·.id)) :=
        hsub.map (·.id)
      refine ⟨?_, ?_, ?_⟩
      · unfold idsNodup
        rw [ensureHasActive_ids]
        exact List.Nodup.sublist hsubm hnd
      · intro j hj
        rw [ensureHasActive_ids] at hj
        exact lt_of_lt_of_le (hbelow j (hsubm.mem hj)) (by simp [opCost])
      · apply ensureHasActive_invariant
        calc activeCount (ps.eraseIdx i)
            ≤ activeCount ps := List.Sublist.length_le (hsub.filter _)
          _ ≤ 1 := activeCount_le_one_of_invariant ps hinv

theorem runStoreOps_cons (u : String) (op : StoreOp) (rest : List StoreOp)
    (ps : List ProfileWithLinks) (c : Nat) :
    runStoreOps u (op :: rest) ps c =
      ((runStoreOps u rest (applyStoreOp u ps op c c).1 (c + opCost op)).1,
       (runStoreOps u rest (applyStoreOp u ps op c c).1 (c + opCost op)).2.1,
       (applyStoreOp u ps op c c).2 &&
         (runStoreOps u rest (applyStoreOp u ps op c c).1
           (c + opCost op)).2.2) :=
  rfl

theorem runStoreOps_ok_wf (u : String) (ops : List StoreOp)
    (ps : List ProfileWithLinks) (c : Nat) (hwf : storeWF ps c)
    (hok : (runStoreOps u ops ps c).2.2 = true) :
    storeWF (runStoreOps u ops ps c).1 (runStoreOps u ops ps c).2.1 := by
  induction ops generalizing ps c with
  | nil => exact hwf
  | cons op rest ih =>
    rw [runStoreOps_cons] at hok ⊢
    simp only [Bool.and_eq_true] at hok
    exact ih _ _ (applyStoreOp_wf u ps op c hwf hok.1) hok.2

theorem runStoreOps_append_ok (u : String) (l₁ l₂ : List StoreOp)
    (ps : List ProfileWithLinks) (c : Nat)
    (hok : (runStoreOps u (l₁ ++ l₂) ps c).2.2 = true) :
    (runStoreOps u l₁ ps c).2.2 = true := by
  induction l₁ generalizing ps c with
  | nil => rfl
  | cons op rest ih =>
    rw [List.cons_append, runStoreOps_cons] at hok
    rw [runStoreOps_cons]
    simp only [Bool.and_eq_true] at hok ⊢
    exact ⟨hok.1, ih _ _ hok.2⟩

theorem save_create_eq (u : String) (ps : List ProfileWithLinks)
    (payload : ProfilePayload) (now fresh : Nat)
    (hname : ¬ jsTrim payload.name = "")
    (hhandle : ¬ normaliseHandle payload.handle = "")
    (hnofind : (payload.id.bind fun pid =>
      ps.find? fun p => p.id = pid) = none) :
    memorySaveProfileForUser u ps payload now fresh =
      saveFinish (ps ++ [newProfileRecord u payload now fresh]) fresh
        payload.active now := by
  simp only [memorySaveProfileForUser]
  rw [if_neg hname, if_neg hhandle, hnofind]
  rfl

theorem save_update_eq (u : String) (ps : List ProfileWithLinks)
    (payload : ProfilePayload) (found : ProfileWithLinks) (now fresh : Nat)
    (hname : ¬ jsTrim payload.name = "")
    (hhandle : ¬ normaliseHandle payload.handle = "")
    (hfind : (payload.id.bind fun pid =>
      ps.find? fun p => p.id = pid) = some found) :
    memorySaveProfileForUser u ps payload now fresh =
      saveFinish
        (ps.map fun p =>
          if p.id = found.id then
            updatedProfileRecord u payload found now fresh
          else p)
        found.id payload.active now := by
  simp only [memorySaveProfileForUser]
  rw [if_neg hname, if_neg hhandle, hfind]
  rfl

theorem saveFinish_inactive_any (ps : List ProfileWithLinks) (pid now : Nat)
    (a : Option Bool) (ha : a.getD false = false)
    (hany : ps.any (·.is_active) = true) :
    saveFinish ps pid a now = .ok ps := by
  unfold saveFinish
  rw [ha, if_neg (by simp), if_pos hany, ensureHasActive_of_any _ _ hany]

theorem saveFinish_inactive_none (ps : List ProfileWithLinks)
    (pid now : Nat) (a : Option Bool) (ha : a.getD false = false)
    (hany : ps.any (·.is_active) = false) :
    saveFinish ps pid a now =
      .ok (memoryEnsureHasActiveProfile
        (ps.map fun p =>
          if p.id = pid then { p with is_active := true } else p) now) := by
  unfold saveFinish
  rw [ha, if_neg (by simp), if_neg (by simp [hany])]

theorem saveFinish_active (ps : List ProfileWithLinks) (pid now : Nat)
    (a : Option Bool) (ha : a.getD false = true)
    (hfound : (ps.any fun p => p.id = pid) = true) :
    saveFinish ps pid a now =
      .ok (memoryEnsureHasActiveProfile
        (memoryEnsureSingleActiveProfile ps pid now).1 now) := by
  unfold saveFinish
  rw [ha, if_pos rfl, if_pos (by
    show (memoryEnsureSingleActiveProfile ps pid now).2 = true
    unfold memoryEnsureSingleActiveProfile
    exact hfound)]

theorem saveFinish_mem_ok (ps : List ProfileWithLinks) (pid now : Nat)
    (a : Option Bool) (hmem : pid ∈ ps.map (·.id)) :
    ∃ r, saveFinish ps pid a now = .ok r := by
  unfold saveFinish
  by_cases ha : a.getD false
  · rw [if_pos ha, if_pos (by
      show (memoryEnsureSingleActiveProfile ps pid now).2 = true
      unfold memoryEnsureSingleActiveProfile
      exact mem_ids_any ps pid hmem)]
    exact ⟨_, rfl⟩
  · rw [if_neg ha]
    by_cases hany : ps.any (·.is_active) = true
    · rw [if_pos hany]
      exact ⟨_, rfl⟩
    · rw [if_neg (by simp [hany])]
      exact ⟨_, rfl⟩

theorem proj_map_preserve {α : Type} (profiles : List ProfileWithLinks)
    (f : ProfileWithLinks → ProfileWithLinks) (g : ProfileWithLinks → α)
    (h : ∀ p ∈ profiles, g (f p) = g p) :
    (profiles.map f).map g = profiles.map g := by
  rw [List.map_map]
  exact List.map_congr_left fun p hp => h p hp

theorem ensureHasActive_proj {α : Type} (g : ProfileWithLinks → α)
    (hg : ∀ (p : ProfileWithLinks) (b : Bool) (n : Nat),
      g { p with is_active := b, updated_at := n } = g p)
    (profiles : List ProfileWithLinks) (now : Nat) :
    (memoryEnsureHasActiveProfile profiles now).map g = profiles.map g := by
  cases profiles with
  | nil => rfl
  | cons first rest =>
    by_cases h : (first :: rest).any (·.is_active)
    · rw [ensureHasActive_of_any _ _ h]
    · rw [ensureHasActive_not_any first rest now h, List.map_cons,
        List.map_cons, hg]

theorem saveFinish_proj {α : Type} (g : ProfileWithLinks → α)
    (hg : ∀ (p : ProfileWithLinks) (b : Bool) (n : Nat),
      g { p with is_active := b, updated_at := n } = g p)
    (hg2 : ∀ (p : ProfileWithLinks) (b : Bool),
      g { p with is_active := b } = g p)
    (ps : List ProfileWithLinks) (pid now : Nat) (a : Option Bool)
    (r : List ProfileWithLinks) (h : saveFinish ps pid a now = .ok r) :
    r.map g = ps.map g := by
  unfold saveFinish at h
  by_cases ha : a.getD false
  · rw [if_pos ha] at h
    by_cases hfound : (memoryEnsureSingleActiveProfile ps pid now).2 = true
    · rw [if_pos hfound] at h
      cases h
      rw [ensureHasActive_proj g hg]
      unfold memoryEnsureSingleActiveProfile
      apply proj_map_preserve
      intro p hp
      by_cases he : p.id = pid
      · rw [if_pos he, hg]
      · rw [if_neg he]
        exact hg2 p false
    · rw [if_neg hfound] at h
      simp at h
  · rw [if_neg ha] at h
    by_cases hany : ps.any (·.is_active) = true
    · rw [if_pos hany] at h
      cases h
      exact ensureHasActive_proj g hg ps now
    · rw [if_neg (by simp [hany])] at h
      cases h
      rw [ensureHasActive_proj g hg]
      apply proj_map_preserve
      intro p hp
      by_cases he : p.id = pid
      · rw [if_pos he]
        exact hg2 p true
      · rw [if_neg he]

theorem find?_id_of_nodup (ps : List ProfileWithLinks)
    (p : ProfileWithLinks) (hnd : idsNodup ps) (hmem : p ∈ ps) :
    (ps.find? fun q => q.id = p.id) = some p := by
  induction ps with
  | nil => simp at hmem
  | cons h t ih =>
    have hnd' := hnd
    unfold idsNodup at hnd'
    rw [List.map_cons, List.nodup_cons] at hnd'
    by_cases he : h.id = p.id
    · have hfh : p = h := by
        rcases List.mem_cons.mp hmem with h1 | h2
        · exact h1
        · exact absurd (he ▸ List.mem_map_of_mem (·.id) h2) hnd'.1
      rw [hfh, List.find?_cons]
      simp
    · have hmt : p ∈ t := by
        rcases List.mem_cons.mp hmem with h1 | h2
        · exact absurd (congrArg (·.id) h1).symm he
        · exact h2
      rw [List.find?_cons]
      have hd : decide (h.id = p.id) = false := by simp [he]
      rw [hd]
      exact ih hnd'.2 hmt

theorem mem_of_map_eq {α β : Type} (l₁ l₂ : List α) (g : α → β)
    (hmap : l₂.map g = l₁.map g) (a : α) (ha : a ∈ l₁) :
    ∃ b ∈ l₂, g b = g a := by
  have hmem : g a ∈ l₂.map g := by
    rw [hmap]
    exact List.mem_map_of_mem g ha
  rcases List.mem_map.mp hmem with ⟨b, hb, hbe⟩
  exact ⟨b, hb, hbe⟩

theorem findIdx_erase (ps : List ProfileWithLinks) (p : ProfileWithLinks)
    (hnd : idsNodup ps) (hmem : p ∈ ps) :
    ∃ i, (ps.findIdx? fun q => q.id = p.id) = some i ∧
      (ps.eraseIdx i).length = ps.length - 1 ∧
      ∀ q ∈ ps.eraseIdx i, q ∈ ps ∧ q.id ≠ p.id := by
  induction ps with
  | nil => simp at hmem
  | cons h t ih =>
    have hnd' := hnd
    unfold idsNodup at hnd'
    rw [List.map_cons, List.nodup_cons] at hnd'
    by_cases he : h.id = p.id
    · refine ⟨0, ?_, ?_, ?_⟩
      · simp [List.findIdx?_cons, he]
      · simp
      · intro q hq
        rw [List.eraseIdx_zero] at hq
        refine ⟨List.mem_cons_of_mem h hq, ?_⟩
        intro hqe
        have hmm : q.id ∈ t.map (·.id) := List.mem_map_of_mem (·.id) hq
        rw [hqe, ← he] at hmm
        exact hnd'.1 hmm
    · have hmt : p ∈ t := by
        rcases List.mem_cons.mp hmem with h1 | h2
        · exact absurd (congrArg (·.id) h1).symm he
        · exact h2
      obtain ⟨i, hfi, hlen, hq⟩ := ih hnd'.2 hmt
      have htpos : 1 ≤ t.length := by
        cases t with
        | nil => simp at hmt
        | cons a b => simp
      refine ⟨i + 1, ?_, ?_, ?_⟩
      · rw [List.findIdx?_cons, if_neg (by simp [he]), List.findIdx?_succ,
          hfi]
        rfl
      · show (h :: t.eraseIdx i).length = (h :: t).length - 1
        simp only [List.length_cons]
        omega
      · intro q hq2
        have hq3 : q ∈ h :: t.eraseIdx i := hq2
        rcases List.mem_cons.mp hq3 with rfl | h4
        · exact ⟨List.mem_cons_self q t, he⟩
        · obtain ⟨hin, hne⟩ := hq q h4
          exact ⟨List.mem_cons_of_mem h hin, hne⟩

theorem active_unique (ps : List ProfileWithLinks) (p : ProfileWithLinks)
    (hone : activeCount ps = 1) (hmem : p ∈ ps)
    (hact : p.is_active = true) :
    ∀ q ∈ ps, q.is_active = true → q = p := by
  intro q hq hqa
  unfold activeCount at hone
  rcases List.length_eq_one.mp hone with ⟨a, ha⟩
  have hp : p ∈ ps.filter (·.is_active) :=
    List.mem_filter.mpr ⟨hmem, by simp [hact]⟩
  have hqf : q ∈ ps.filter (·.is_active) :=
    List.mem_filter.mpr ⟨hq, by simp [hqa]⟩
  rw [ha, List.mem_singleton] at hp hqf
  rw [hqf, hp]

theorem setActive_miss (profiles : List ProfileWithLinks) (pid now : Nat)
    (hmiss : ∀ p ∈ profiles, p.id ≠ pid) :
    memorySetActiveProfileForUser profiles pid now =
      (profiles.map fun p => { p with is_active := false },
       some "Profile not found") := by
  unfold memorySetActiveProfileForUser
  rw [ensureSingle_miss profiles pid now hmiss]
  rfl

/-! ## Theorems for the claims -/

/-- C6: the "ensure has active profile" repair is idempotent — for every
account state, applying it twice in a row yields the same profile-set state
as applying it once. -/
theorem c6_ensure_has_active_idempotent
    (profiles : List ProfileWithLinks) (t1 t2 : Nat) :
    memoryEnsureHasActiveProfile (memoryEnsureHasActiveProfile profiles t1) t2
      = memoryEnsureHasActiveProfile profiles t1 := by
  cases profiles with
  | nil => rfl
  | cons first rest =>
    by_cases h : (first :: rest).any (·.is_active)
    · simp [memoryEnsureHasActiveProfile, h]
    · simp [memoryEnsureHasActiveProfile, h]

/-- C10: `setActiveProfileForUser` is not atomic on failure — with at least
one profile and a `profileId` belonging to none of them, the call throws
"Profile not found" only after demoting every profile, leaving the account
with the same profiles and zero active ones. -/
theorem c10_set_active_demotes_then_throws
    (profiles : List ProfileWithLinks) (pid now : Nat)
    (_hne : profiles ≠ []) (hmiss : ∀ p ∈ profiles, p.id ≠ pid) :
    (memorySetActiveProfileForUser profiles pid now).2 =
        some "Profile not found" ∧
      activeCount (memorySetActiveProfileForUser profiles pid now).1 = 0 ∧
      (memorySetActiveProfileForUser profiles pid now).1.map (·.id) =
        profiles.map (·.id) := by
  rw [setActive_miss profiles pid now hmiss]
  refine ⟨rfl, ?_, ?_⟩
  · apply activeCount_eq_zero
    intro p hp
    rcases List.mem_map.mp hp with ⟨q, hq, rfl⟩
    rfl
  · rw [List.map_map]
    rfl

/-- Witness for C10 at a one-profile account and a foreign profile id. -/
theorem c10_witness :
    (memorySetActiveProfileForUser [soloProfile] 5 9).2 =
        some "Profile not found" ∧
      activeCount (memorySetActiveProfileForUser [soloProfile] 5 9).1 = 0 ∧
      (memorySetActiveProfileForUser [soloProfile] 5 9).1.map (·.id) =
        [soloProfile].map (·.id) :=
  c10_set_active_demotes_then_throws [soloProfile] 5 9 (by decide)
    (by decide)

/-- C1 counterexample: after a save and a failed activate (which demotes the
lone profile and then throws), a delete of a non-existent profile id
*completes* yet leaves the account with one profile and zero active ones,
so the claimed invariant does not hold after every completed operation of
every sequence. -/
theorem c1_counterexample :
    (applyStoreOp "acc_1" c1StateAfterTwo (.delete 999) c1CounterAfterTwo
        c1CounterAfterTwo).2 = true ∧
      (applyStoreOp "acc_1" c1StateAfterTwo (.delete 999) c1CounterAfterTwo
        c1CounterAfterTwo).1.length = 1 ∧
      ¬ profilesInvariant
        (applyStoreOp "acc_1" c1StateAfterTwo (.delete 999) c1CounterAfterTwo
          c1CounterAfterTwo).1 := by
  decide

/-- C2 counterexample: in the three-profile account reached by `c2Ops`, the
active profile has id 4 and the most-recently-updated other profile is id 2
(updated at 6, versus 0 for id 0); deleting the active profile promotes
id 0 — the first remaining profile in creation order — not id 2. -/
theorem c2_counterexample :
    c2State.map (·.id) = [0, 2, 4] ∧
      (c2State.find? fun p => p.id = 4).map (·.is_active) = some true ∧
      (c2State.find? fun p => p.id = 2).map (·.updated_at) = some 6 ∧
      (c2State.find? fun p => p.id = 0).map (·.updated_at) = some 0 ∧
      ((memoryDeleteProfileForUser c2State 4 8).find? fun p =>
          p.id = 2).map (·.is_active) = some false ∧
      ((memoryDeleteProfileForUser c2State 4 8).find? fun p =>
          p.id = 0).map (·.is_active) = some true := by
  decide

/-- C4 counterexample: the in-memory implementation accepts a second profile
of the same account whose normalized handle collides with an existing one —
both saves complete and two profiles with handle "my-handle" are persisted,
instead of the second save failing as a duplicate. -/
theorem c4_counterexample :
    c4Run.2.2 = true ∧
      c4Run.1.map (·.handle) = ["my-handle", "my-handle"] ∧
      c4Run.1.length = 2 := by
  decide

/-- C1 (amended): over every sequence of save/activate/delete operations on
one account's profile set in which every operation completes without
throwing, after each operation the number of profiles with
`is_active = true` is exactly 1 if the account has at least one profile and
0 otherwise. -/
theorem c1_amended_invariant_on_success (u : String)
    (l₁ l₂ : List StoreOp)
    (hok : (runStoreOps u (l₁ ++ l₂) [] 0).2.2 = true) :
    profilesInvariant (runStoreOps u l₁ [] 0).1 := by
  have h1 : (runStoreOps u l₁ [] 0).2.2 = true :=
    runStoreOps_append_ok u l₁ l₂ [] 0 hok
  have hwf0 : storeWF ([] : List ProfileWithLinks) 0 :=
    ⟨List.nodup_nil, fun i hi => absurd hi (by simp), by decide⟩
  exact (runStoreOps_ok_wf u l₁ [] 0 hwf0 h1).2.2

/-- Witness for the amended C1: a fully successful two-operation sequence,
checked after its first operation. -/
theorem c1_amended_witness :
    profilesInvariant
      (runStoreOps "acc_1" [StoreOp.save jessPayload] [] 0).1 :=
  c1_amended_invariant_on_success "acc_1" [StoreOp.save jessPayload]
    [StoreOp.save workPayload] (by decide)

/-- C2 (amended): deleting the currently active profile of an account with
at least two profiles promotes the *first remaining profile in creation
(insertion) order* — `profiles[0]` — to active (not the most-recently-
updated one); in particular, with exactly two profiles where P1 is active,
deleting P1 makes P2 active.  The result has one profile fewer, its first
profile is active, exactly one profile is active, and the deleted id is
gone. -/
theorem c2_amended_delete_promotes_first (ps : List ProfileWithLinks)
    (p : ProfileWithLinks) (now : Nat) (hnd : idsNodup ps)
    (hinv : profilesInvariant ps) (hmem : p ∈ ps)
    (hact : p.is_active = true) (hlen : 2 ≤ ps.length) :
    (memoryDeleteProfileForUser ps p.id now).length = ps.length - 1 ∧
      ((memoryDeleteProfileForUser ps p.id now).head?).map (·.is_active) =
        some true ∧
      activeCount (memoryDeleteProfileForUser ps p.id now) = 1 ∧
      ∀ q ∈ memoryDeleteProfileForUser ps p.id now, q.id ≠ p.id := by
  have hone : activeCount ps = 1 := by
    have h1 : activeCount ps ≤ 1 := activeCount_le_one_of_invariant ps hinv
    have h2 : activeCount ps ≠ 0 :=
      activeCount_pos_of_any _
        (List.any_eq_true.mpr ⟨p, hmem, by simp [hact]⟩)
    omega
  obtain ⟨i, hfi, hlen2, hq⟩ := findIdx_erase ps p hnd hmem
  have hdel : memoryDeleteProfileForUser ps p.id now =
      memoryEnsureHasActiveProfile (ps.eraseIdx i) now := by
    unfold memoryDeleteProfileForUser
    rw [hfi]
  have hinactive : ∀ q ∈ ps.eraseIdx i, q.is_active = false := by
    intro q hq2
    obtain ⟨hin, hne⟩ := hq q hq2
    by_contra hc
    rw [Bool.not_eq_false] at hc
    have := active_unique ps p hone hmem hact q hin hc
    exact hne (by rw [this])
  have hlen1 : 1 ≤ (ps.eraseIdx i).length := by omega
  obtain ⟨e1, erest, herase⟩ : ∃ e1 erest, ps.eraseIdx i = e1 :: erest := by
    cases herr : ps.eraseIdx i with
    | nil => rw [herr] at hlen1; simp at hlen1
    | cons a b => exact ⟨a, b, rfl⟩
  have hnotany : ¬ ((e1 :: erest).any (·.is_active) = true) := by
    intro hcon
    rcases List.any_eq_true.mp hcon with ⟨q, hq2, hqa⟩
    have := hinactive q (by rw [herase]; exact hq2)
    rw [this] at hqa
    exact Bool.false_ne_true hqa
  rw [hdel, herase, ensureHasActive_not_any e1 erest now hnotany]
  have hcerest : activeCount erest = 0 :=
    activeCount_eq_zero erest fun q hq2 =>
      hinactive q (by rw [herase]; exact List.mem_cons_of_mem e1 hq2)
  refine ⟨?_, ?_, ?_, ?_⟩
  · have := congrArg List.length herase
    simp only [List.length_cons] at this ⊢
    omega
  · rfl
  · rw [activeCount_cons]
    simp [hcerest]
  · intro q hq2
    rcases List.mem_cons.mp hq2 with rfl | h3
    · exact (hq e1 (by rw [herase]; exact List.mem_cons_self e1 erest)).2
    · exact (hq q (by
        rw [herase]
        exact List.mem_cons_of_mem e1 h3)).2

/-- C3: for an account with no profiles, a save whose payload does not set
`active` creates the profile with `active = true` (first-profile
auto-activation); a subsequent save creating a second profile with
`active = true` sets the first profile's `active` to `false` and the new
profile's to `true`. -/
theorem c3_first_save_auto_activates (u : String)
    (pl1 pl2 : ProfilePayload) (now1 fresh1 now2 fresh2 : Nat)
    (h1name : ¬ jsTrim pl1.name = "")
    (h1handle : ¬ normaliseHandle pl1.handle = "")
    (h1act : pl1.active = none)
    (h2name : ¬ jsTrim pl2.name = "")
    (h2handle : ¬ normaliseHandle pl2.handle = "")
    (h2id : pl2.id = none) (h2act : pl2.active = some true)
    (hfr : fresh2 ≠ fresh1) :
    ∃ p1 ps2,
      memorySaveProfileForUser u [] pl1 now1 fresh1 = .ok [p1] ∧
        p1.is_active = true ∧
        memorySaveProfileForUser u [p1] pl2 now2 fresh2 = .ok ps2 ∧
        ps2.map (·.is_active) = [false, true] := by
  have hnofind1 : (pl1.id.bind fun pid =>
      ([] : List ProfileWithLinks).find? fun p => p.id = pid) = none := by
    cases pl1.id <;> rfl
  have s1 : memorySaveProfileForUser u [] pl1 now1 fresh1 =
      .ok [{ newProfileRecord u pl1 now1 fresh1 with is_active := true }] := by
    rw [save_create_eq u [] pl1 now1 fresh1 h1name h1handle hnofind1,
      List.nil_append,
      saveFinish_inactive_none [newProfileRecord u pl1 now1 fresh1] fresh1
        now1 pl1.active (by rw [h1act]; rfl) (by simp [newProfileRecord])]
    have hmap1 : ([newProfileRecord u pl1 now1 fresh1].map fun p =>
        if p.id = fresh1 then { p with is_active := true } else p) =
        [{ newProfileRecord u pl1 now1 fresh1 with is_active := true }] := by
      simp [newProfileRecord]
    rw [hmap1, ensureHasActive_of_any _ _ (by simp)]
  have hnofind2 : (pl2.id.bind fun pid =>
      ([{ newProfileRecord u pl1 now1 fresh1 with is_active := true }] :
        List ProfileWithLinks).find? fun p => p.id = pid) = none := by
    rw [h2id]
    rfl
  have hfr' : ¬ (fresh1 = fresh2) := fun hh => hfr hh.symm
  have s2 : memorySaveProfileForUser u
      [{ newProfileRecord u pl1 now1 fresh1 with is_active := true }] pl2
      now2 fresh2 =
      .ok [{ newProfileRecord u pl1 now1 fresh1 with is_active := false },
           { newProfileRecord u pl2 now2 fresh2 with
             is_active := true, updated_at := now2 }] := by
    rw [save_create_eq u _ pl2 now2 fresh2 h2name h2handle hnofind2,
      List.singleton_append,
      saveFinish_active _ fresh2 now2 pl2.active (by rw [h2act]; rfl)
        (by simp [newProfileRecord])]
    have hmap2 : (memoryEnsureSingleActiveProfile
        [{ newProfileRecord u pl1 now1 fresh1 with is_active := true },
         newProfileRecord u pl2 now2 fresh2] fresh2 now2).1 =
        [{ newProfileRecord u pl1 now1 fresh1 with is_active := false },
         { newProfileRecord u pl2 now2 fresh2 with
           is_active := true, updated_at := now2 }] := by
      simp [memoryEnsureSingleActiveProfile, newProfileRecord, hfr']
    rw [hmap2, ensureHasActive_of_any _ _ (by simp)]
  exact ⟨_, _, s1, rfl, s2, by simp⟩

/-- Witness for C3: the spec's end-to-end Jess/Work scenario. -/
theorem c3_witness :
    ∃ p1 ps2,
      memorySaveProfileForUser "acc_1" [] jessPayload 0 0 = .ok [p1] ∧
        p1.is_active = true ∧
        memorySaveProfileForUser "acc_1" [p1] workPayload 5 5 = .ok ps2 ∧
        ps2.map (·.is_active) = [false, true] :=
  c3_first_save_auto_activates "acc_1" jessPayload workPayload 0 0 5 5
    (by decide) (by decide) (by decide) (by decide) (by decide) (by decide)
    (by decide) (by decide)

/-- C4 (amended): `saveProfile` normalizes the payload handle by trimming
and lowercasing before persisting it (" My-Handle " is stored as
"my-handle", and "MY-HANDLE" normalizes to the same handle); however, the
in-memory implementation does not reject the duplicate: a save of a new
profile of the same account whose normalized handle equals an existing
profile's handle completes successfully and persists a second profile with
that handle (handle uniqueness is enforced only by the database constraint
`user_profiles_handle_unique` on the Supabase path). -/
theorem c4_amended_normalizes_but_accepts_duplicate :
    normaliseHandle " My-Handle " = "my-handle" ∧
      normaliseHandle "MY-HANDLE" = "my-handle" ∧
      ∀ (u : String) (ps : List ProfileWithLinks)
        (payload : ProfilePayload) (now fresh : Nat)
        (q : ProfileWithLinks),
        q ∈ ps → q.handle = normaliseHandle payload.handle →
        payload.id = none → ¬ jsTrim payload.name = "" →
        ¬ normaliseHandle payload.handle = "" →
        ∃ ps', memorySaveProfileForUser u ps payload now fresh = .ok ps' ∧
          ps'.map (·.handle) =
            ps.map (·.handle) ++ [normaliseHandle payload.handle] ∧
          2 ≤ (ps'.map (·.handle)).count
            (normaliseHandle payload.handle) := by
  refine ⟨by decide, by decide, ?_⟩
  intro u ps payload now fresh q hq hqh hid hname hhandle
  have hnofind : (payload.id.bind fun pid =>
      ps.find? fun p => p.id = pid) = none := by
    rw [hid]
    rfl
  have e1 := save_create_eq u ps payload now fresh hname hhandle hnofind
  obtain ⟨r, hsf⟩ := saveFinish_mem_ok
    (ps ++ [newProfileRecord u payload now fresh]) fresh now payload.active
    (by
      rw [List.map_append]
      exact List.mem_append_right _ (by simp [newProfileRecord]))
  rw [hsf] at e1
  have hhandles := saveFinish_proj (·.handle) (fun p b n => rfl)
    (fun p b => rfl) _ fresh now payload.active r hsf
  have hhandles2 : r.map (·.handle) =
      ps.map (·.handle) ++ [normaliseHandle payload.handle] := by
    rw [hhandles, List.map_append]
    rfl
  refine ⟨r, e1, hhandles2, ?_⟩
  rw [hhandles2, List.count_append]
  have hqmem : normaliseHandle payload.handle ∈ ps.map (·.handle) := by
    rw [← hqh]
    exact List.mem_map_of_mem (·.handle) hq
  have h1 : 1 ≤ (ps.map (·.handle)).count (normaliseHandle payload.handle) :=
    List.count_pos_iff.mpr hqmem
  have h2 : ([normaliseHandle payload.handle]).count
      (normaliseHandle payload.handle) = 1 := by
    simp
  omega

/-- Witness for the amended C4: the account already holds "my-handle";
saving a new profile with handle "MY-HANDLE" succeeds and both handles are
stored as "my-handle". -/
theorem c4_amended_witness :
    ∃ ps', memorySaveProfileForUser "acc_1" [mineProfile] myHandlePayload2
        5 5 = .ok ps' ∧
      ps'.map (·.handle) =
        [mineProfile].map (·.handle) ++
          [normaliseHandle myHandlePayload2.handle] ∧
      2 ≤ (ps'.map (·.handle)).count
        (normaliseHandle myHandlePayload2.handle) :=
  c4_amended_normalizes_but_accepts_duplicate.2.2 "acc_1" [mineProfile]
    myHandlePayload2 5 5 mineProfile (by decide) (by decide) (by decide)
    (by decide) (by decide)

/-- C5: round-trip of the full-replace link semantics — for every prior
link set of a profile, saving the profile with the link list
`[{title:"A",url:"https://a"},{title:"B",url:"https://b"}]` and then
loading the account's profiles returns that profile with exactly two links
titled A and B in that order, their order indexes re-numbered by array
position (0 and 1). -/
theorem c5_link_replace_roundtrip (u : String)
    (ps : List ProfileWithLinks) (p : ProfileWithLinks)
    (payload : ProfilePayload) (now fresh : Nat) (hnd : idsNodup ps)
    (hmem : p ∈ ps) (hpid : payload.id = some p.id)
    (hlinks : payload.links =
      [{ id := none, title := "A", url := "https://a" },
       { id := none, title := "B", url := "https://b" }])
    (hname : ¬ jsTrim payload.name = "")
    (hhandle : ¬ normaliseHandle payload.handle = "") :
    ∃ ps', memorySaveProfileForUser u ps payload now fresh = .ok ps' ∧
      ∃ q ∈ memoryGetProfiles ps', q.id = p.id ∧
        q.links.map (·.title) = ["A", "B"] ∧
        q.links.map (·.order_index) = [0, 1] := by
  have hfind : (payload.id.bind fun pid =>
      ps.find? fun pr => pr.id = pid) = some p := by
    rw [hpid, Option.some_bind]
    exact find?_id_of_nodup ps p hnd hmem
  have e1 := save_update_eq u ps payload p now fresh hname hhandle hfind
  have hids1 : (ps.map fun pr =>
      if pr.id = p.id then updatedProfileRecord u payload p now fresh
      else pr).map (·.id) = ps.map (·.id) := by
    apply ids_map_preserve
    intro pr hpr
    by_cases he : pr.id = p.id
    · rw [if_pos he, he]
      rfl
    · rw [if_neg he]
  obtain ⟨r, hsf⟩ := saveFinish_mem_ok _ p.id now payload.active (by
    rw [hids1]
    exact List.mem_map_of_mem (·.id) hmem)
  rw [hsf] at e1
  refine ⟨r, e1, ?_⟩
  have hupdmem : updatedProfileRecord u payload p now fresh ∈
      ps.map fun pr =>
        if pr.id = p.id then updatedProfileRecord u payload p now fresh
        else pr :=
    List.mem_map.mpr ⟨p, hmem, by simp⟩
  have hpairs := saveFinish_proj (fun pr => (pr.id, pr.links))
    (fun pr b n => rfl) (fun pr b => rfl) _ p.id now payload.active r hsf
  obtain ⟨q, hqmem, hqe⟩ := mem_of_map_eq _ r
    (fun pr => (pr.id, pr.links)) hpairs _ hupdmem
  have hqid : q.id = p.id := congrArg Prod.fst hqe
  have hqlinks : q.links =
      rebuildLinks u p.id p.links now payload.links 0 fresh :=
    congrArg Prod.snd hqe
  rw [hlinks] at hqlinks
  have hA : jsTrim "A" = "A" := by decide
  have hB : jsTrim "B" = "B" := by decide
  have hAne : ¬ (("A" : String) = "") := by decide
  have hBne : ¬ (("B" : String) = "") := by decide
  refine ⟨q, ?_, hqid, ?_, ?_⟩
  · unfold memoryGetProfiles
    rw [List.mem_mergeSort]
    exact hqmem
  · rw [hqlinks]
    simp only [rebuildLinks, Option.none_bind, List.map_cons, List.map_nil]
    rw [hA, hB, if_neg hAne, if_neg hBne]
  · rw [hqlinks]
    simp only [rebuildLinks, Option.none_bind, List.map_cons, List.map_nil]

/-- Witness for C5: replacing the single old link of `priorProfile` with
A and B. -/
theorem c5_witness :
    ∃ ps', memorySaveProfileForUser "acc_1" [priorProfile]
        replaceLinksPayload 9 20 = .ok ps' ∧
      ∃ q ∈ memoryGetProfiles ps', q.id = priorProfile.id ∧
        q.links.map (·.title) = ["A", "B"] ∧
        q.links.map (·.order_index) = [0, 1] :=
  c5_link_replace_roundtrip "acc_1" [priorProfile] priorProfile
    replaceLinksPayload 9 20 (by decide) (by decide) (by decide)
    (by decide) (by decide) (by decide)

/-- Witness for the amended C2: two profiles, P1 active; deleting P1 leaves
one profile, whose head (P2) is active. -/
theorem c2_amended_witness :
    (memoryDeleteProfileForUser [p1Active, p2Inactive] p1Active.id 5).length
        = [p1Active, p2Inactive].length - 1 ∧
      ((memoryDeleteProfileForUser [p1Active, p2Inactive]
          p1Active.id 5).head?).map (·.is_active) = some true ∧
      activeCount
        (memoryDeleteProfileForUser [p1Active, p2Inactive] p1Active.id 5)
        = 1 ∧
      ∀ q ∈ memoryDeleteProfileForUser [p1Active, p2Inactive] p1Active.id 5,
        q.id ≠ p1Active.id :=
  c2_amended_delete_promotes_first [p1Active, p2Inactive] p1Active 5
    (by decide) (by decide) (by decide) (by decide) (by decide)

theorem autosaveInv_handleSave (s : AutosaveState)
    (h : s.inflight.length = if s.saving then 1 else 0) :
    (autosaveHandleSave s).inflight.length =
      if (autosaveHandleSave s).saving then 1 else 0 := by
  unfold autosaveHandleSave
  by_cases hs : s.saving
  · rw [if_pos hs]
    simpa [hs] using h
  · rw [if_neg hs]
    rw [if_neg hs] at h
    simp [h]

theorem autosaveInv_afterEffects (s : AutosaveState)
    (h : s.inflight.length = if s.saving then 1 else 0) :
    (autosaveAfterEffects s).inflight.length =
      if (autosaveAfterEffects s).saving then 1 else 0 := by
  unfold autosaveAfterEffects
  by_cases hc : (!s.saving && s.pending && autosaveIsDirty s) = true
  · rw [if_pos hc]
    exact autosaveInv_handleSave _ h
  · rw [if_neg hc]
    exact h

theorem autosaveInv_step (s s' : AutosaveState) (e : AutosaveEvent)
    (h : s.inflight.length = if s.saving then 1 else 0)
    (hstep : autosaveStep s e = some s') :
    s'.inflight.length = if s'.saving then 1 else 0 := by
  cases e with
  | mutate d =>
    cases hstep
    exact autosaveInv_afterEffects _ h
  | timerFire =>
    unfold autosaveStep at hstep
    by_cases hd : autosaveIsDirty s = true
    · rw [if_pos hd] at hstep
      cases hstep
      exact autosaveInv_handleSave _ h
    · rw [if_neg hd] at hstep
      simp at hstep
  | completeOk =>
    unfold autosaveStep at hstep
    cases hinf : s.inflight with
    | nil => rw [hinf] at hstep; simp at hstep
    | cons d rest =>
      rw [hinf] at hstep
      simp only [Option.some_inj] at hstep
      have hrest : rest.length = 0 := by
        rw [hinf] at h
        by_cases hs : s.saving
        · rw [if_pos hs] at h
          simpa using h
        · rw [if_neg hs] at h
          simp at h
      rw [← hstep]
      apply autosaveInv_afterEffects
      simp [hrest]
  | completeErr =>
    unfold autosaveStep at hstep
    cases hinf : s.inflight with
    | nil => rw [hinf] at hstep; simp at hstep
    | cons d rest =>
      rw [hinf] at hstep
      simp only [Option.some_inj] at hstep
      have hrest : rest.length = 0 := by
        rw [hinf] at h
        by_cases hs : s.saving
        · rw [if_pos hs] at h
          simpa using h
        · rw [if_neg hs] at h
          simp at h
      rw [← hstep]
      apply autosaveInv_afterEffects
      simp [hrest]

theorem runAutosave_from (events : List AutosaveEvent) (s0 s : AutosaveState)
    (h0 : s0.inflight.length = if s0.saving then 1 else 0)
    (h : events.foldl (fun acc e => acc.bind fun t => autosaveStep t e)
      (some s0) = some s) :
    s.inflight.length = if s.saving then 1 else 0 := by
  induction events generalizing s0 with
  | nil => cases h; exact h0
  | cons e rest ih =>
    rw [List.foldl_cons] at h
    simp only [Option.some_bind] at h
    cases hstep : autosaveStep s0 e with
    | none =>
      rw [hstep] at h
      have hnone : ∀ l : List AutosaveEvent,
          l.foldl (fun acc ev => acc.bind fun t => autosaveStep t ev) none =
            none := by
        intro l
        induction l with
        | nil => rfl
        | cons f fs ihr => rw [List.foldl_cons]; exact ihr
      rw [hnone rest] at h
      exact absurd h (by simp)
    | some s1 =>
      rw [hstep] at h
      exact ih s1 (autosaveInv_step s0 s1 e h0 hstep) h

/-- C7 (amended): at most one save request is in flight per draft at any
time (the in-flight set has size one exactly while `saving` holds); when a
save was requested while one is in flight, an additional save fires at
completion only if the draft is then dirty — after a *failed* completion
exactly one additional save fires, carrying the draft as of completion
time, while a *successful* completion replaces the draft by the canonical
response (discarding mutations made during the flight) and fires no
additional save. -/
theorem c7_amended_single_flight (events : List AutosaveEvent)
    (s : AutosaveState) (h : runAutosave events = some s) :
    s.inflight.length = (if s.saving then 1 else 0) ∧
      (∀ s', autosaveStep s .completeErr = some s' → s.pending = true →
        autosaveIsDirty s = true → s'.fired = s.draft :: s.fired) ∧
      (∀ s', autosaveStep s .completeOk = some s' → s'.fired = s.fired) := by
  have hinv := runAutosave_from events autosaveInit s (by decide) h
  refine ⟨hinv, ?_, ?_⟩
  · intro s' hstep hp hd
    unfold autosaveStep at hstep
    cases hinf : s.inflight with
    | nil => rw [hinf] at hstep; simp at hstep
    | cons d rest =>
      rw [hinf] at hstep
      simp only [Option.some_inj] at hstep
      rw [← hstep]
      have hd' : (s.draft != s.savedProfile) = true := hd
      simp [autosaveAfterEffects, autosaveHandleSave, autosaveIsDirty, hp,
        hd']
  · intro s' hstep
    unfold autosaveStep at hstep
    cases hinf : s.inflight with
    | nil => rw [hinf] at hstep; simp at hstep
    | cons d rest =>
      rw [hinf] at hstep
      simp only [Option.some_inj] at hstep
      rw [← hstep]
      simp [autosaveAfterEffects, autosaveIsDirty]

/-- Witness for the amended C7, at the state with a save in flight and a
pending request. -/
theorem c7_amended_witness :
    c7BusyState.inflight.length =
        (if c7BusyState.saving then 1 else 0) ∧
      (∀ s', autosaveStep c7BusyState .completeErr = some s' →
        c7BusyState.pending = true → autosaveIsDirty c7BusyState = true →
        s'.fired = c7BusyState.draft :: c7BusyState.fired) ∧
      (∀ s', autosaveStep c7BusyState .completeOk = some s' →
        s'.fired = c7BusyState.fired) :=
  c7_amended_single_flight
    [.mutate 1, .timerFire, .mutate 2, .timerFire] c7BusyState (by decide)

/-- C7 counterexample: a save fires carrying draft 1; while it is in
flight the user mutates to draft 2 and the debounce fires (recording the
pending request); the save then completes *successfully*.  The canonical
response overwrites draft 2, the state is no longer dirty, and no
additional save ever fires (`fired` stays `[1]` and only a new user
mutation is enabled) — contradicting "exactly one additional save fires
after the in-flight save completes, carrying the draft at completion
time". -/
theorem c7_counterexample :
    runAutosave [.mutate 1, .timerFire, .mutate 2, .timerFire,
        .completeOk] = some c7AfterOkState ∧
      c7AfterOkState.fired = [1] ∧
      c7AfterOkState.draft = 1 ∧
      c7AfterOkState.pending = true ∧
      autosaveStep c7AfterOkState .timerFire = none ∧
      autosaveStep c7AfterOkState .completeOk = none ∧
      autosaveStep c7AfterOkState .completeErr = none := by
  decide

/-- C9 counterexample: a submission whose honeypot is non-empty (after
trimming) but which fails the required-field validation is shown the
"Missing info" error toast, not the success message, and the form is not
reset — the validation check runs before the honeypot check. -/
theorem c9_counterexample :
    publicLeadFormOnSubmit (some "owner") [requiredNameField] [] false
        defaultFormSettings " x " true =
      { captureAttempted := false, persisted := false,
        notifyForwarded := false, successToast := none,
        errorToast := some "Please fill in the required fields.",
        formReset := false, redirected := false } := by
  decide

/-- C9 (amended): for every lead-form submission that passes the owner and
required-field/consent validation and whose hidden honeypot input is
non-empty after trimming, the submission is discarded without being
persisted or forwarded to the capture endpoint, while the sender is shown
the success message and the form reset — exactly what a genuine (honeypot-
empty) submission with a resolvable name and e-mail is shown on success. -/
theorem c9_amended_honeypot_discards_silently (ownerId : String)
    (fields : List DynamicField) (answers : List (String × LeadAnswer))
    (consentChecked : Bool) (settings : FormSettings) (trap : String)
    (insertOk : Bool)
    (hvalid : validateRequired fields answers consentChecked settings =
      none)
    (htrap : ¬ jsTrim trap = "") :
    publicLeadFormOnSubmit (some ownerId) fields answers consentChecked
        settings trap insertOk =
      { captureAttempted := false, persisted := false,
        notifyForwarded := false,
        successToast := some settings.successMessage, errorToast := none,
        formReset := true, redirected := false } ∧
      ∀ trap₂ : String, jsTrim trap₂ = "" →
        ¬ (leadNameEmail fields answers).1 = "" →
        ¬ (leadNameEmail fields answers).2 = "" →
        (publicLeadFormOnSubmit (some ownerId) fields answers
            consentChecked settings trap₂ true).successToast =
          some settings.successMessage ∧
        (publicLeadFormOnSubmit (some ownerId) fields answers
            consentChecked settings trap₂ true).formReset = true := by
  constructor
  · simp only [publicLeadFormOnSubmit]
    rw [hvalid]
    rw [if_pos htrap]
  · intro trap₂ h2 hn he
    simp only [publicLeadFormOnSubmit]
    rw [hvalid]
    rw [if_neg (by simp [h2])]
    rw [if_neg (by simp [hn, he])]
    exact ⟨rfl, rfl⟩

/-- Witness for the amended C9: a valid submission with honeypot " x " is
silently discarded with the success toast and reset; the same answers with
an empty honeypot are shown the same success toast and reset. -/
theorem c9_amended_witness :
    publicLeadFormOnSubmit (some "owner")
        [requiredNameField,
         { id := "d2", key := "email", label := "Email", type := "email",
           required := false, is_hidden := false }]
        [("name", .str "Alice"), ("email", .str "alice@example.com")] false
        defaultFormSettings " x " true =
      { captureAttempted := false, persisted := false,
        notifyForwarded := false,
        successToast := some defaultFormSettings.successMessage,
        errorToast := none, formReset := true, redirected := false } ∧
      ∀ trap₂ : String, jsTrim trap₂ = "" →
        ¬ (leadNameEmail
            [requiredNameField,
             { id := "d2", key := "email", label := "Email",
               type := "email", required := false, is_hidden := false }]
            [("name", .str "Alice"),
             ("email", .str "alice@example.com")]).1 = "" →
        ¬ (leadNameEmail
            [requiredNameField,
             { id := "d2", key := "email", label := "Email",
               type := "email", required := false, is_hidden := false }]
            [("name", .str "Alice"),
             ("email", .str "alice@example.com")]).2 = "" →
        (publicLeadFormOnSubmit (some "owner")
            [requiredNameField,
             { id := "d2", key := "email", label := "Email",
               type := "email", required := false, is_hidden := false }]
            [("name", .str "Alice"), ("email", .str "alice@example.com")]
            false defaultFormSettings trap₂ true).successToast =
          some defaultFormSettings.successMessage ∧
        (publicLeadFormOnSubmit (some "owner")
            [requiredNameField,
             { id := "d2", key := "email", label := "Email",
               type := "email", required := false, is_hidden := false }]
            [("name", .str "Alice"), ("email", .str "alice@example.com")]
            false defaultFormSettings trap₂ true).formReset = true :=
  c9_amended_honeypot_discards_silently "owner"
    [requiredNameField,
     { id := "d2", key := "email", label := "Email", type := "email",
       required := false, is_hidden := false }]
    [("name", .str "Alice"), ("email", .str "alice@example.com")] false
    defaultFormSettings " x " true (by decide) (by decide)

theorem natDigitCharsAux_irrel : ∀ (n f₁ f₂ : Nat), n < f₁ → n < f₂ →
    natDigitCharsAux f₁ n = natDigitCharsAux f₂ n := by
  intro n
  induction n using Nat.strong_induction_on with
  | _ n ih =>
    intro f₁ f₂ h₁ h₂
    cases f₁ with
    | zero => omega
    | succ f₁' =>
      cases f₂ with
      | zero => omega
      | succ f₂' =>
        unfold natDigitCharsAux
        by_cases h10 : n < 10
        · rw [if_pos h10, if_pos h10]
        · rw [if_neg h10, if_neg h10]
          have hdiv : n / 10 < n := Nat.div_lt_self (by omega) (by omega)
          rw [ih (n / 10) hdiv f₁' f₂' (by omega) (by omega)]

theorem natDigitCharsAux_ne_nil (f n : Nat) (h : n < f) :
    natDigitCharsAux f n ≠ [] := by
  cases f with
  | zero => omega
  | succ f' =>
    unfold natDigitCharsAux
    by_cases h10 : n < 10
    · rw [if_pos h10]
      simp
    · rw [if_neg h10]
      simp

theorem natDigitCharsAux_succ (f n : Nat) :
    natDigitCharsAux (f + 1) n =
      if n < 10 then [digitChar n]
      else natDigitCharsAux f (n / 10) ++ [digitChar (n % 10)] := rfl

theorem digitChar_inj_lt : ∀ a < 10, ∀ b < 10,
    digitChar a = digitChar b → a = b := by decide

theorem natToString_inj : ∀ m n : Nat,
    natToString m = natToString n → m = n := by
  intro m
  induction m using Nat.strong_induction_on with
  | _ m ih =>
    intro n h
    have hd : natDigitCharsAux (m + 1) m = natDigitCharsAux (n + 1) n :=
      congrArg String.data h
    by_cases hm : m < 10 <;> by_cases hn : n < 10
    · rw [show natDigitCharsAux (m + 1) m = [digitChar m] by
          rw [natDigitCharsAux_succ, if_pos hm],
        show natDigitCharsAux (n + 1) n = [digitChar n] by
          rw [natDigitCharsAux_succ, if_pos hn]] at hd
      exact digitChar_inj_lt m hm n hn (by simpa using hd)
    · exfalso
      rw [show natDigitCharsAux (m + 1) m = [digitChar m] by
          rw [natDigitCharsAux_succ, if_pos hm],
        show natDigitCharsAux (n + 1) n =
            natDigitCharsAux n (n / 10) ++ [digitChar (n % 10)] by
          rw [natDigitCharsAux_succ, if_neg hn]] at hd
      have hne := natDigitCharsAux_ne_nil n (n / 10)
        (Nat.div_lt_self (by omega) (by omega))
      have hlen := congrArg List.length hd
      simp only [List.length_cons, List.length_append,
        List.length_nil] at hlen
      exact hne (List.length_eq_zero.mp (by omega))
    · exfalso
      rw [show natDigitCharsAux (n + 1) n = [digitChar n] by
          rw [natDigitCharsAux_succ, if_pos hn],
        show natDigitCharsAux (m + 1) m =
            natDigitCharsAux m (m / 10) ++ [digitChar (m % 10)] by
          rw [natDigitCharsAux_succ, if_neg hm]] at hd
      have hne := natDigitCharsAux_ne_nil m (m / 10)
        (Nat.div_lt_self (by omega) (by omega))
      have hlen := congrArg List.length hd
      simp only [List.length_cons, List.length_append,
        List.length_nil] at hlen
      exact hne (List.length_eq_zero.mp (by omega))
    · rw [show natDigitCharsAux (m + 1) m =
            natDigitCharsAux m (m / 10) ++ [digitChar (m % 10)] by
          rw [natDigitCharsAux_succ, if_neg hm],
        show natDigitCharsAux (n + 1) n =
            natDigitCharsAux n (n / 10) ++ [digitChar (n % 10)] by
          rw [natDigitCharsAux_succ, if_neg hn]] at hd
      have hpair := List.append_inj' hd (by simp)
      have hmod : m % 10 = n % 10 :=
        digitChar_inj_lt _ (Nat.mod_lt _ (by omega)) _
          (Nat.mod_lt _ (by omega)) (by simpa using hpair.2)
      have hdivlt : m / 10 < m := Nat.div_lt_self (by omega) (by omega)
      have hdiv : m / 10 = n / 10 := by
        apply ih (m / 10) hdivlt
        unfold natToString
        congr 1
        rw [natDigitCharsAux_irrel (m / 10) (m / 10 + 1) m (by omega)
          (by omega)]
        rw [natDigitCharsAux_irrel (n / 10) (n / 10 + 1) n (by omega)
          (by omega)]
        exact hpair.1
      omega

theorem keyCandidate_inj (base : String) (i j : Nat)
    (h : keyCandidate base i = keyCandidate base j) : i = j := by
  unfold keyCandidate at h
  have hdata := congrArg String.data h
  simp only [String.data_append] at hdata
  have h3 := List.append_cancel_left hdata
  exact natToString_inj i j (congrArg String.mk h3)

theorem base_ne_keyCandidate (base : String) (i : Nat) :
    ¬ base = keyCandidate base i := by
  intro h
  have hlen : base.data.length = (keyCandidate base i).data.length :=
    congrArg (fun s => s.data.length) h
  simp only [keyCandidate, String.data_append, List.length_append,
    List.length_singleton] at hlen
  omega

theorem triedKeys_mem (base : String) : ∀ (fuel counter : Nat)
    (key x : String), x ∈ triedKeys base fuel counter key →
    x = key ∨ ∃ j, counter ≤ j ∧ x = keyCandidate base j := by
  intro fuel
  induction fuel with
  | zero =>
    intro counter key x hx
    simp [triedKeys] at hx
  | succ f ih =>
    intro counter key x hx
    rw [show triedKeys base (f + 1) counter key =
        key :: triedKeys base f (counter + 1) (keyCandidate base counter)
      from rfl] at hx
    rcases List.mem_cons.mp hx with h1 | h2
    · exact Or.inl h1
    · rcases ih (counter + 1) (keyCandidate base counter) x h2 with
        h3 | ⟨j, hj1, hj2⟩
      · exact Or.inr ⟨counter, le_refl _, h3⟩
      · exact Or.inr ⟨j, by omega, hj2⟩

theorem triedKeys_nodup (base : String) : ∀ (fuel counter : Nat)
    (key : String), (∀ j, counter ≤ j → ¬ key = keyCandidate base j) →
    (triedKeys base fuel counter key).Nodup := by
  intro fuel
  induction fuel with
  | zero =>
    intro counter key hk
    simp [triedKeys]
  | succ f ih =>
    intro counter key hk
    rw [show triedKeys base (f + 1) counter key =
        key :: triedKeys base f (counter + 1) (keyCandidate base counter)
      from rfl, List.nodup_cons]
    constructor
    · intro hmem
      rcases triedKeys_mem base f (counter + 1) (keyCandidate base counter)
          key hmem with h1 | ⟨j, hj1, hj2⟩
      · exact hk counter (le_refl _) h1
      · exact hk j (by omega) hj2
    · apply ih
      intro j hj heq
      have := keyCandidate_inj base counter j heq
      omega

theorem filter_mem_cons_length (S : List String) (key : String)
    (tr : List String) (hk : key ∉ tr) :
    (S.filter (· ∈ key :: tr)).length =
      (S.filter (· = key)).length + (S.filter (· ∈ tr)).length := by
  induction S with
  | nil => rfl
  | cons x xs ih =>
    rw [List.filter_cons, List.filter_cons, List.filter_cons]
    by_cases hx : x = key
    · subst hx
      rw [if_pos (by simp), if_pos (by simp), if_neg (by simp [hk])]
      simp only [List.length_cons, ih]
      omega
    · by_cases hx2 : x ∈ tr
      · rw [if_pos (by simp [hx2]), if_neg (by simp [hx]),
          if_pos (by simp [hx2])]
        simp only [List.length_cons, ih]
        omega
      · rw [if_neg (by simp [hx, hx2]), if_neg (by simp [hx]),
          if_neg (by simp [hx2])]
        exact ih

theorem freshKeyAux_not_mem (S : List String) (base : String) :
    ∀ (fuel counter : Nat) (key : String),
      (triedKeys base fuel counter key).Nodup →
      (S.filter (· ∈ triedKeys base fuel counter key)).length < fuel →
      freshKeyAux S base fuel counter key ∉ S := by
  intro fuel
  induction fuel with
  | zero =>
    intro counter key hnd hcnt
    omega
  | succ f ih =>
    intro counter key hnd hcnt
    unfold freshKeyAux
    by_cases hc : S.contains key
    · rw [if_pos hc]
      have hkeyS : key ∈ S := List.elem_iff.mp hc
      have hnd' := hnd
      rw [show triedKeys base (f + 1) counter key =
          key :: triedKeys base f (counter + 1) (keyCandidate base counter)
        from rfl, List.nodup_cons] at hnd'
      apply ih (counter + 1) (keyCandidate base counter) hnd'.2
      have hsplit := filter_mem_cons_length S key
        (triedKeys base f (counter + 1) (keyCandidate base counter))
        hnd'.1
      rw [show triedKeys base (f + 1) counter key =
          key :: triedKeys base f (counter + 1) (keyCandidate base counter)
        from rfl, hsplit] at hcnt
      have h1 : 0 < (S.filter (· = key)).length :=
        List.length_pos_of_mem
          (List.mem_filter.mpr ⟨hkeyS, by simp⟩)
      omega
    · rw [if_neg hc]
      intro hmem
      exact hc (List.elem_iff.mpr hmem)

theorem freshKey_step_not_mem (used : List String) (base : String) :
    freshKeyAux used base (used.length + 1) 1 base ∉ used := by
  apply freshKeyAux_not_mem used base (used.length + 1) 1 base
  · apply triedKeys_nodup
    intro j hj
    exact base_ne_keyCandidate base j
  · calc (used.filter
        (· ∈ triedKeys base (used.length + 1) 1 base)).length
        ≤ used.length := List.length_filter_le _ _
      _ < used.length + 1 := by omega

theorem ensureUniqueKeysGo_nodup : ∀ (fields : List BuilderField)
    (used : List String),
    ((ensureUniqueKeysGo used fields).map (·.key)).Nodup ∧
      ∀ k ∈ (ensureUniqueKeysGo used fields).map (·.key), k ∉ used := by
  intro fields
  induction fields with
  | nil =>
    intro used
    exact ⟨List.nodup_nil, by simp [ensureUniqueKeysGo]⟩
  | cons f rest ih =>
    intro used
    set bs := jsOr (normalizeKey (jsOr f.key (jsOr f.label "field")))
      "field" with hbs
    set nk := freshKeyAux used bs (used.length + 1) 1 bs with hnkdef
    have hgo : ensureUniqueKeysGo used (f :: rest) =
        { f with key := nk } :: ensureUniqueKeysGo (nk :: used) rest := rfl
    rw [hgo]
    obtain ⟨htl, hnotin⟩ := ih (nk :: used)
    have hnkused : nk ∉ used := freshKey_step_not_mem used bs
    constructor
    · rw [List.map_cons, List.nodup_cons]
      refine ⟨?_, htl⟩
      intro hmem
      exact hnotin _ hmem (List.mem_cons_self _ _)
    · intro k hk
      rw [List.map_cons] at hk
      rcases List.mem_cons.mp hk with h1 | h2
      · rw [h1]
        exact hnkused
      · intro hku
        exact hnotin k h2 (List.mem_cons_of_mem _ hku)

/-- C8: lead-form field key de-duplication — adding two fields both
labeled "Email" to the same scope produces the distinct keys "email" and
"email_1", and in general the keys of the persisted field set produced by
`ensureUniqueKeys` are pairwise distinct. -/
theorem c8_field_keys_pairwise_distinct :
    (ensureUniqueKeys [emailField, emailField2]).map (·.key) =
        ["email", "email_1"] ∧
      ∀ fields : List BuilderField,
        ((ensureUniqueKeys fields).map (·.key)).Nodup := by
  constructor
  · decide
  · intro fields
    exact (ensureUniqueKeysGo_nodup fields []).1

end LinketConnect
